import Mathlib

/-!
Verification of the py-lsm storage engine against its specification.

The development shallowly embeds the Python sources: files are lists of
byte values (`List Nat`, each < 256), Python `str` is Lean `String`
(UTF-8 encodable code points), fallible code returns `Except PyErr`,
and the CPython runtime primitives used by the sources
(`str.encode`/`bytes.decode`, `zlib.crc32`, `hashlib.sha256`, `int`,
`str`, `struct.pack`, `pickle`) are modelled as executable functions.
-/

/-- Exceptions that the embedded code can raise. -/
inductive PyErr where
  | valueError
  | unicodeDecodeError
  | zeroDivisionError
  | attributeError
  | structError
  | unpicklingError
  | mathDomainError
  | overflowError
  deriving DecidableEq, Repr

/-! Decimal rendering and parsing.

`natDigits n` is the byte string of ASCII decimal digits produced by
Python `str(n)` (for a nonnegative int) encoded as UTF-8. -/

/-- ASCII decimal digits of `n`, most significant first (model of `str(n).encode()`). -/
def natDigits (n : Nat) : List Nat :=
  if h : n < 10 then [48 + n]
  else natDigits (n / 10) ++ [48 + n % 10]
  decreasing_by exact Nat.div_lt_self (by omega) (by omega)

/-- Value of a big-endian list of ASCII decimal digit bytes. -/
def digitsVal (l : List Nat) : Nat :=
  l.foldl (fun a d => a * 10 + (d - 48)) 0

/-- Is `d` the byte of an ASCII decimal digit? -/
def isDigitByte (d : Nat) : Bool := 48 ≤ d && d ≤ 57


/-! UTF-8 encoding and decoding, modelling `str.encode("utf-8")` and
`bytes.decode("utf-8")` of CPython (strict error handling). -/

/-- UTF-8 encoding of one code point (model of CPython's encoder; every
Lean `Char` is a valid non-surrogate code point, which is exactly the
set of `str` contents that `encode` accepts). -/
def utf8EncodeChar (c : Char) : List Nat :=
  let n := c.toNat
  if n < 128 then [n]
  else if n < 2048 then [192 + n / 64, 128 + n % 64]
  else if n < 65536 then [224 + n / 4096, 128 + n / 64 % 64, 128 + n % 64]
  else [240 + n / 262144, 128 + n / 4096 % 64, 128 + n / 64 % 64, 128 + n % 64]

/-- Model of `s.encode("utf-8")`. -/
def utf8Encode (s : String) : List Nat :=
  (s.data.map utf8EncodeChar).flatten

/-- Number of bytes of the UTF-8 sequence introduced by start byte `b`
(for invalid start bytes the value is irrelevant: `utf8DecodeSeq` rejects). -/
def utf8SeqLen (b : Nat) : Nat :=
  if b < 128 then 1 else if b < 224 then 2 else if b < 240 then 3 else 4

/-- Decode a single UTF-8 sequence (the bytes of one code point), with the
strict checks of CPython's decoder: continuation-byte shape, no overlong
encodings, no surrogates, nothing above U+10FFFF. -/
def utf8DecodeSeq : List Nat → Option Nat
  | [b] => if b < 128 then some b else none
  | [b, b1] =>
    if 194 ≤ b ∧ b < 224 ∧ 128 ≤ b1 ∧ b1 < 192 then
      some ((b - 192) * 64 + (b1 - 128))
    else none
  | [b, b1, b2] =>
    let n := (b - 224) * 4096 + (b1 - 128) * 64 + (b2 - 128)
    if 224 ≤ b ∧ b < 240 ∧ 128 ≤ b1 ∧ b1 < 192 ∧ 128 ≤ b2 ∧ b2 < 192 ∧
        2048 ≤ n ∧ (n < 55296 ∨ 57343 < n) then
      some n
    else none
  | [b, b1, b2, b3] =>
    let n := (b - 240) * 262144 + (b1 - 128) * 4096 + (b2 - 128) * 64 + (b3 - 128)
    if 240 ≤ b ∧ b < 245 ∧ 128 ≤ b1 ∧ b1 < 192 ∧ 128 ≤ b2 ∧ b2 < 192 ∧
        128 ≤ b3 ∧ b3 < 192 ∧ 65536 ≤ n ∧ n < 1114112 then
      some n
    else none
  | _ => none

/-- Strict UTF-8 decoder on byte lists (model of `bytes.decode("utf-8")`). -/
def utf8DecodeList (l : List Nat) : Option (List Char) :=
  match l with
  | [] => some []
  | b :: bs =>
    match utf8DecodeSeq ((b :: bs).take (utf8SeqLen b)) with
    | none => none
    | some n => (utf8DecodeList ((b :: bs).drop (utf8SeqLen b))).map (fun cs => Char.ofNat n :: cs)
termination_by l.length
decreasing_by
  have h1 : 1 ≤ utf8SeqLen b := by
    simp only [utf8SeqLen]
    split
    · omega
    · split
      · omega
      · split <;> omega
  simp only [List.length_drop, List.length_cons]
  omega

/-- Model of `bytes.decode("utf-8")`, producing a string. -/
def utf8Decode (bytes : List Nat) : Option String :=
  (utf8DecodeList bytes).map String.mk

/-- One bit step of the reflected CRC-32 computation. -/
def crc32Round (c : Nat) : Nat :=
  if c % 2 = 1 then (c / 2) ^^^ 3988292384 else c / 2

/-- Fold one byte into the running CRC. -/
def crc32Byte (crc b : Nat) : Nat := crc32Round^[8] (crc ^^^ b)

/-- Model of `zlib.crc32(bytes)`. -/
def crc32 (bytes : List Nat) : Nat :=
  (bytes.foldl crc32Byte 4294967295) ^^^ 4294967295

/-! Python `int(str)` (model of the built-in on the fragment used here:
optional ASCII whitespace, optional single sign, decimal digits;
underscore grouping is not modelled — no input in this development
contains one). -/

/-- ASCII whitespace stripped by Python `int()`. -/
def isPySpace (c : Char) : Bool := c.toNat == 32 || (9 ≤ c.toNat && c.toNat ≤ 13)

/-- Is `c` an ASCII decimal digit? -/
def isDigitChar (c : Char) : Bool := 48 ≤ c.toNat && c.toNat ≤ 57

/-- Numeric value of a list of decimal digit characters. -/
def digitCharsVal (cs : List Char) : Nat :=
  cs.foldl (fun a c => a * 10 + (c.toNat - 48)) 0

/-- Parse a nonempty all-digit character list. -/
def pyIntDigits (cs : List Char) : Option Nat :=
  if cs ≠ [] ∧ cs.all isDigitChar then some (digitCharsVal cs) else none

/-- Model of the Python built-in `int(s)`; `ValueError` on anything that
is not (whitespace, optional sign, nonempty digits, whitespace). -/
def pyInt (s : String) : Except PyErr Int :=
  let cs := ((s.data.dropWhile isPySpace).reverse.dropWhile isPySpace).reverse
  if cs.head? = some '-' then
    match pyIntDigits cs.tail with
    | some n => .ok (-(n : Int))
    | none => .error .valueError
  else if cs.head? = some '+' then
    match pyIntDigits cs.tail with
    | some n => .ok (n : Int)
    | none => .error .valueError
  else
    match pyIntDigits cs with
    | some n => .ok (n : Int)
    | none => .error .valueError

/-- Big-endian 4-byte encoding of a `u32` (one `I` field of
`struct.pack(">III", ...)`). -/
def u32be (n : Nat) : List Nat :=
  [n / 16777216 % 256, n / 65536 % 256, n / 256 % 256, n % 256]

/-- Big-endian read of 4 bytes (one `I` field of `struct.unpack(">III", ...)`). -/
def readU32 (l : List Nat) : Nat :=
  l.getD 0 0 * 16777216 + l.getD 1 0 * 65536 + l.getD 2 0 * 256 + l.getD 3 0

/-! The write-ahead log (`src/wal.py`).

The WAL file is modelled as the list of its bytes.  `WAL.append` writes
one record `header ++ key ++ value ++ checksum` where the header is
`struct.pack(">III", len(key_bytes), len(value_bytes), len(checksum_bytes))`
and the checksum is the decimal text of `zlib.crc32(key+value)`.
`flush`/`fsync` have no content in this byte-level model. -/

namespace WAL

/-- The bytes one `WAL.append(key, value)` call writes. -/
def recordBytes (key value : String) : List Nat :=
  let key_bytes := utf8Encode key
  let value_bytes := utf8Encode value
  let checksum_bytes := natDigits (crc32 (key_bytes ++ value_bytes))
  u32be key_bytes.length ++ u32be value_bytes.length ++ u32be checksum_bytes.length ++
    key_bytes ++ value_bytes ++ checksum_bytes

/-- Model of `WAL.append`: appends one record to the file.  `struct.pack`
raises `struct.error` when a length does not fit in a `u32` (the checksum
text is at most 10 digits, always in range). -/
def append (file : List Nat) (key value : String) : Except PyErr (List Nat) :=
  if (utf8Encode key).length < 4294967296 ∧ (utf8Encode value).length < 4294967296 then
    .ok (file ++ recordBytes key value)
  else .error .structError

/-- Append a whole sequence of pairs, left to right. -/
def appendAll (file : List Nat) (pairs : List (String × String)) : Except PyErr (List Nat) :=
  pairs.foldlM (fun f p => append f p.1 p.2) file

/-- Model of the loop of `WAL.replay`.  Mirrors the source statement by
statement: read the 12-byte header or break; read key and value with
short-read checks; read the checksum bytes WITHOUT a short-read check
(the source omits it); `int(checksum_bytes.decode("utf-8"))` which can
raise; stop at a checksum mismatch; decode and record the entry, with
`value = None` when `val_len == 0` (tombstone). -/
def replayGo (bytes : List Nat) (entries : List (String × Option String)) :
    Except PyErr (List (String × Option String)) :=
  if bytes.length < 12 then .ok entries.reverse
  else
    let key_len := readU32 (bytes.take 4)
    let val_len := readU32 ((bytes.drop 4).take 4)
    let checksum_len := readU32 ((bytes.drop 8).take 4)
    let rest0 := bytes.drop 12
    let key_bytes := rest0.take key_len
    if key_bytes.length < key_len then .ok entries.reverse
    else
      let rest1 := rest0.drop key_len
      -- `f.read(val_len) if val_len > 0 else b""`: `take` agrees for `val_len = 0`.
      let value_bytes := rest1.take val_len
      if value_bytes.length < val_len then .ok entries.reverse
      else
        let rest2 := rest1.drop val_len
        let checksum_bytes := rest2.take checksum_len
        match utf8Decode checksum_bytes with
        | none => .error .unicodeDecodeError
        | some cstr =>
          match pyInt cstr with
          | .error e => .error e
          | .ok checksum_data =>
            if checksum_data ≠ (crc32 (key_bytes ++ value_bytes) : Int) then .ok entries.reverse
            else
              match utf8Decode key_bytes with
              | none => .error .unicodeDecodeError
              | some key =>
                if 0 < val_len then
                  match utf8Decode value_bytes with
                  | none => .error .unicodeDecodeError
                  | some value => replayGo (rest2.drop checksum_len) ((key, some value) :: entries)
                else replayGo (rest2.drop checksum_len) ((key, none) :: entries)
termination_by bytes.length
decreasing_by
  all_goals
    simp only [List.length_drop]
    omega

/-- Model of `WAL.replay`. -/
def replay (file : List Nat) : Except PyErr (List (String × Option String)) :=
  replayGo file []

end WAL
/-! SHA-256 (model of `int(hashlib.sha256(data).hexdigest(), 16)`: the
digest as a 256-bit big-endian natural number), from FIPS 180-4. -/

/-- The 64 SHA-256 round constants. -/
def sha256K : List Nat := [
  1116352408, 1899447441, 3049323471, 3921009573, 961987163, 1508970993, 2453635748, 2870763221,
  3624381080, 310598401, 607225278, 1426881987, 1925078388, 2162078206, 2614888103, 3248222580,
  3835390401, 4022224774, 264347078, 604807628, 770255983, 1249150122, 1555081692, 1996064986,
  2554220882, 2821834349, 2952996808, 3210313671, 3336571891, 3584528711, 113926993, 338241895,
  666307205, 773529912, 1294757372, 1396182291, 1695183700, 1986661051, 2177026350, 2456956037,
  2730485921, 2820302411, 3259730800, 3345764771, 3516065817, 3600352804, 4094571909, 275423344,
  430227734, 506948616, 659060556, 883997877, 958139571, 1322822218, 1537002063, 1747873779,
  1955562222, 2024104815, 2227730452, 2361852424, 2428436474, 2756734187, 3204031479, 3329325298
]

/-- The initial SHA-256 hash state. -/
def sha256H0 : List Nat := [
  1779033703, 3144134277, 1013904242, 2773480762, 1359893119, 2600822924, 528734635, 1541459225
]

/-- Right rotation of a 32-bit word. -/
def rotr32 (x n : Nat) : Nat := ((x >>> n) ||| (x <<< (32 - n))) % 4294967296

/-- Big-endian 8-byte encoding of the 64-bit message bit length. -/
def u64be (n : Nat) : List Nat :=
  [n / 72057594037927936 % 256, n / 281474976710656 % 256, n / 1099511627776 % 256,
    n / 4294967296 % 256, n / 16777216 % 256, n / 65536 % 256, n / 256 % 256, n % 256]

/-- SHA-256 message padding: a 0x80 byte, zeros to 56 mod 64, then the
bit length. -/
def sha256Pad (msg : List Nat) : List Nat :=
  let r := (msg.length + 1) % 64
  let k := (120 - r) % 64
  msg ++ [128] ++ List.replicate k 0 ++ u64be (8 * msg.length)

/-- Combine bytes into big-endian 32-bit words. -/
def bytesToWords : List Nat → List Nat
  | b0 :: b1 :: b2 :: b3 :: rest =>
    (b0 * 16777216 + b1 * 65536 + b2 * 256 + b3) :: bytesToWords rest
  | _ => []

/-- Split a byte list into 64-byte blocks. -/
def chunks64 (l : List Nat) : List (List Nat) :=
  if h : l = [] then [] else l.take 64 :: chunks64 (l.drop 64)
termination_by l.length
decreasing_by
  have h0 : 0 < l.length := List.length_pos.mpr h
  simp only [List.length_drop]
  omega

/-- Extend the 16 words of a block to the 64-word message schedule. -/
def sha256Schedule (w16 : List Nat) : List Nat :=
  (List.range 48).foldl
    (fun w _ =>
      let i := w.length
      let a := w.getD (i - 15) 0
      let b := w.getD (i - 2) 0
      let s0 := rotr32 a 7 ^^^ rotr32 a 18 ^^^ (a >>> 3)
      let s1 := rotr32 b 17 ^^^ rotr32 b 19 ^^^ (b >>> 10)
      w ++ [(w.getD (i - 16) 0 + s0 + w.getD (i - 7) 0 + s1) % 4294967296])
    w16

/-- The 64-round SHA-256 compression of one block schedule, added back
into the incoming state. -/
def sha256Compress (hs w : List Nat) : List Nat :=
  let fin := (List.range 64).foldl
    (fun st i =>
      match st with
      | [a, b, c, d, e, f, g, h] =>
        let S1 := rotr32 e 6 ^^^ rotr32 e 11 ^^^ rotr32 e 25
        let ch := (e &&& f) ^^^ ((4294967295 ^^^ e) &&& g)
        let temp1 := (h + S1 + ch + sha256K.getD i 0 + w.getD i 0) % 4294967296
        let S0 := rotr32 a 2 ^^^ rotr32 a 13 ^^^ rotr32 a 22
        let maj := (a &&& b) ^^^ (a &&& c) ^^^ (b &&& c)
        let temp2 := (S0 + maj) % 4294967296
        [(temp1 + temp2) % 4294967296, a, b, c, (d + temp1) % 4294967296, e, f, g]
      | other => other)
    hs
  List.zipWith (fun x y => (x + y) % 4294967296) hs fin

/-- Model of `int(hashlib.sha256(msg).hexdigest(), 16)`. -/
def sha256Nat (msg : List Nat) : Nat :=
  let hs := (chunks64 (sha256Pad msg)).foldl
    (fun hs blk => sha256Compress hs (sha256Schedule (bytesToWords blk))) sha256H0
  hs.foldl (fun acc w => acc * 4294967296 + w) 0

/-! The Bloom filter (`src/bloom_filter.py`).

The float arithmetic of `_get_size` / `_get_hash_count` (`math.log`,
float division) is idealised as exact real arithmetic; Python `int()`
applied to a float truncates toward zero, which is `intTrunc`.  The
stored `error_rate` attribute is carried as a rational.  For the
`0 < p < 1` regimes of every claim both computed parameters are
nonnegative, so the final `Int.toNat` casts are exact. -/

/-- Python `int()` on a real value: truncation toward zero. -/
noncomputable def intTrunc (x : ℝ) : ℤ := if 0 ≤ x then ⌊x⌋ else ⌈x⌉

/-- The `BloomFilter` object state: `capacity`, `error_rate`, derived
`size` (bits) and `hash_count`, and the integer used as a bit set. -/
structure BloomFilter where
  capacity : Nat
  error_rate : ℚ
  size : Nat
  hash_count : Nat
  bit_array : Nat
  deriving DecidableEq

/-- Model of `_get_size(n, p) = int(-(n * math.log(p)) / (math.log(2) ** 2))`. -/
noncomputable def BloomFilter._get_size (n : Nat) (p : ℚ) : Nat :=
  (intTrunc (-(n * Real.log (p : ℝ)) / (Real.log 2) ^ 2)).toNat

/-- Model of `_get_hash_count(m, n) = int((m / n) * math.log(2))` (the
division-by-zero case is raised by `BloomFilter.init` before this is
reached). -/
noncomputable def BloomFilter._get_hash_count (m n : Nat) : Nat :=
  (intTrunc (((m : ℝ) / (n : ℝ)) * Real.log 2)).toNat

/-- Model of `BloomFilter(capacity, error_rate)`: `math.log` raises
`ValueError` (math domain error) on a nonpositive argument inside
`_get_size`; then `_get_hash_count` divides `m / n`, raising
`ZeroDivisionError` when `capacity == 0`. -/
noncomputable def BloomFilter.init (capacity : Nat) (error_rate : ℚ) : Except PyErr BloomFilter :=
  if error_rate ≤ 0 then .error .mathDomainError
  else
    let size := BloomFilter._get_size capacity error_rate
    if capacity = 0 then .error .zeroDivisionError
    else
      .ok { capacity := capacity, error_rate := error_rate, size := size,
            hash_count := BloomFilter._get_hash_count size capacity, bit_array := 0 }

/-- Model of `_hashes(key)`: positions
`int(sha256(key_bytes + i.to_bytes(1, "little")).hexdigest(), 16) % size`
for `i in range(hash_count)`.  The generator raises `ZeroDivisionError`
at the first iteration when `size == 0`, and `i.to_bytes(1, "little")`
raises `OverflowError` at iteration 256 when `hash_count > 256`; with
`hash_count == 0` it yields nothing and no error is reached. -/
def BloomFilter._hashes (bf : BloomFilter) (key : String) : Except PyErr (List Nat) :=
  if bf.hash_count = 0 then .ok []
  else if bf.size = 0 then .error .zeroDivisionError
  else if 256 < bf.hash_count then .error .overflowError
  else .ok ((List.range bf.hash_count).map (fun i => sha256Nat (utf8Encode key ++ [i]) % bf.size))

/-- Model of `add(key)`: set each derived bit of `bit_array`. -/
def BloomFilter.add (bf : BloomFilter) (key : String) : Except PyErr BloomFilter :=
  (bf._hashes key).map fun hs =>
    { bf with bit_array := hs.foldl (fun a h => a ||| (1 <<< h)) bf.bit_array }

/-- Model of `not_contains(key)`: true iff every derived bit is unset. -/
def BloomFilter.not_contains (bf : BloomFilter) (key : String) : Except PyErr Bool :=
  (bf._hashes key).map fun hs => hs.all (fun h => (bf.bit_array &&& (1 <<< h)) == 0)

/-! Serialisation of a BloomFilter (model of `pickle.dumps`/`pickle.loads`:
per the spec the blob is an opaque, implementation-defined, injective
encoding of the object's fields; here the fields are rendered in decimal
with separator bytes). -/

/-- Decimal bytes of an integer, with a leading minus sign when negative. -/
def intDigits (n : Int) : List Nat :=
  if n < 0 then 45 :: natDigits n.natAbs else natDigits n.toNat

/-- Parse decimal bytes of a natural number. -/
def parseNatBytes (l : List Nat) : Option Nat :=
  if l ≠ [] ∧ l.all isDigitByte then some (digitsVal l) else none

/-- Parse decimal bytes of an integer. -/
def parseIntBytes (l : List Nat) : Option Int :=
  if l.head? = some 45 then (parseNatBytes l.tail).map (fun n => -(n : Int))
  else (parseNatBytes l).map (fun n => (n : Int))

/-- Split a byte list at every occurrence of `sep`. -/
def splitOnByte (sep : Nat) : List Nat → List (List Nat)
  | [] => [[]]
  | b :: rest =>
    if b = sep then [] :: splitOnByte sep rest
    else
      match splitOnByte sep rest with
      | g :: gs => (b :: g) :: gs
      | [] => [[b]]

/-- Model of `pickle.dumps` on a `BloomFilter`. -/
def pickleDumps (bf : BloomFilter) : List Nat :=
  natDigits bf.capacity ++ [124] ++
    intDigits bf.error_rate.num ++ [47] ++ natDigits bf.error_rate.den ++ [124] ++
    natDigits bf.size ++ [124] ++ natDigits bf.hash_count ++ [124] ++ natDigits bf.bit_array

/-- Model of `pickle.loads` on bytes expected to hold a `BloomFilter`
(`none` models the exception raised on garbage input). -/
def pickleLoads (bytes : List Nat) : Option BloomFilter :=
  match splitOnByte 124 bytes with
  | [p0, p1, p2, p3, p4] =>
    match splitOnByte 47 p1 with
    | [pn, pd] =>
      match parseNatBytes p0, parseIntBytes pn, parseNatBytes pd,
          parseNatBytes p2, parseNatBytes p3, parseNatBytes p4 with
      | some cap, some num, some den, some size, some k, some bits =>
        if den ≠ 0 then
          some { capacity := cap, error_rate := (num : ℚ) / (den : ℚ), size := size,
                 hash_count := k, bit_array := bits }
        else none
      | _, _, _, _, _, _ => none
    | _ => none
  | _ => none

/-! The MemTable (`src/memtable.py`).  The backing `dict` is modelled as
an insertion-ordered association list with unique keys, exactly the
observable behaviour Python guarantees.  Note that `clear()` in the
source assigns a NEW attribute `self.data = {}` instead of touching
`self._data`; the model therefore carries both attributes. -/

/-- Python-dict update: overwrite in place keeping insertion position,
else append at the end. -/
def dictSet : List (String × String) → String → String → List (String × String)
  | [], k, v => [(k, v)]
  | p :: rest, k, v => if p.1 = k then (k, v) :: rest else p :: dictSet rest k v

/-- The MemTable object: `_data` is the dict used by every method;
`data` is the stray attribute created by `clear()` (absent until then). -/
structure MemTable where
  _data : List (String × String)
  data : Option (List (String × String)) := none
  deriving DecidableEq

/-- Model of `MemTable()`. -/
def MemTable.mkEmpty : MemTable := { _data := [], data := none }

/-- Model of `set(key, value)`: `self._data[key] = value`. -/
def MemTable.set (mt : MemTable) (key value : String) : MemTable :=
  { mt with _data := dictSet mt._data key value }

/-- Model of `get(key)`: `self._data.get(key)`. -/
def MemTable.get (mt : MemTable) (key : String) : Option String :=
  (mt._data.find? (fun p => p.1 == key)).map (fun p => p.2)

/-- Model of `clear()`: the source executes `self.data = {}`, creating a
fresh attribute and leaving `self._data` — the dict every other method
reads — untouched. -/
def MemTable.clear (mt : MemTable) : MemTable :=
  { mt with data := some [] }

/-- Comparison used by Python `sorted` on `(key, value)` tuples:
lexicographic, strings by code points. -/
def pairLeBool (a b : String × String) : Bool :=
  decide (a.1 < b.1 ∨ (a.1 = b.1 ∧ a.2 ≤ b.2))

/-- Model of `get_sorted_items()`: `sorted(self._data.items())`. -/
def MemTable.get_sorted_items (mt : MemTable) : List (String × String) :=
  mt._data.mergeSort pairLeBool

/-- Model of `len(memtable)`. -/
def MemTable.len (mt : MemTable) : Nat := mt._data.length

/-! The sorted-file writer (`src/sstable/writer.py`). -/

/-- `SSTableWriter.BLOOM_MARKER`. -/
def BLOOM_MARKER : List Nat := utf8Encode "__BLOOM_START__\n"

/-- The loop of `SSTableWriter.write`: for each `(key, value)` add the
key to the bloom filter, write the checkpoint line `f"{key}\t{offset}\n"`
to the index accumulator every `sparsity_index`-th entry (`i % 0` raises
`ZeroDivisionError`), write the data line `f"{key}\t{value}\n"`, and
advance the byte offset by the encoded line length. -/
def SSTableWriter.writeGo (sparsity_index : Nat) :
    List (String × String) → Nat → Nat → BloomFilter → List Nat → List Nat →
    Except PyErr (List Nat × List Nat × BloomFilter)
  | [], _, _, bloom, dataAcc, idxAcc => .ok (dataAcc, idxAcc, bloom)
  | (key, value) :: rest, i, offset, bloom, dataAcc, idxAcc =>
    (bloom.add key).bind fun bloom2 =>
    if sparsity_index = 0 then .error .zeroDivisionError
    else
      let idxAcc2 := if i % sparsity_index = 0
        then idxAcc ++ utf8Encode key ++ [9] ++ natDigits offset ++ [10]
        else idxAcc
      let line := utf8Encode key ++ [9] ++ utf8Encode value ++ [10]
      SSTableWriter.writeGo sparsity_index rest (i + 1) (offset + line.length) bloom2
        (dataAcc ++ line) idxAcc2

/-- Model of `SSTableWriter.write(sorted_kv_pairs)` with the writer's
`sparsity_index`; returns the bytes of the data file and of the index
file (checkpoint lines, marker, pickled bloom filter).  The bloom filter
is built with `capacity = len(kv_list)` and the writer's fixed
`bloon_error_rate = 0.01`. -/
noncomputable def SSTableWriter.write (sparsity_index : Nat)
    (sorted_kv_pairs : List (String × String)) : Except PyErr (List Nat × List Nat) :=
  let kv_list := sorted_kv_pairs
  let capacity := kv_list.length
  (BloomFilter.init capacity (1 / 100)).bind fun bloom =>
  (SSTableWriter.writeGo sparsity_index kv_list 0 0 bloom [] []).map fun r =>
    (r.1, r.2.1 ++ BLOOM_MARKER ++ pickleDumps r.2.2)

/-! The sorted-file reader (`src/sstable/reader.py`). -/

/-- The reader object.  `bloom_filter = none` models the attribute never
having been assigned (no marker line was found). -/
structure SSTableReader where
  db_path : String
  sparse_index : List (String × Int)
  bloom_filter : Option BloomFilter
  deriving DecidableEq

/-- The `for line in f` loop of `SSTableReader.__init__`, byte by byte:
accumulate the current line; at a newline compare the finished line with
the marker; on the marker, `f.read()` the remaining bytes and unpickle
them (raising on garbage).  The two statements that would parse a
checkpoint line into `sparse_index` sit AFTER the `break` statement in
the source and are unreachable, so no line is ever parsed and a final
line without a newline is never compared. -/
def SSTableReader.initGo (lineAcc : List Nat) : List Nat → Except PyErr (Option BloomFilter)
  | [] => .ok none
  | b :: rest =>
    if b = 10 then
      if lineAcc ++ [10] = BLOOM_MARKER then
        match pickleLoads rest with
        | some bf => .ok (some bf)
        | none => .error .unpicklingError
      else SSTableReader.initGo [] rest
    else SSTableReader.initGo (lineAcc ++ [b]) rest

/-- Model of `SSTableReader(db_path, index_path)` on the bytes of the
index file: `sparse_index` is left `[]` (see `SSTableReader.initGo`),
and `bloom_filter` is the unpickled trailing blob if a marker line was
found. -/
def SSTableReader.init (db_path : String) (index_bytes : List Nat) :
    Except PyErr SSTableReader :=
  (SSTableReader.initGo [] index_bytes).map fun bf =>
    { db_path := db_path, sparse_index := [], bloom_filter := bf }

/-- Model of `SSTableReader.get(key)`.  `self.bloom_filter` is missing
when no marker line was found (`AttributeError`).  When the bloom filter
says "maybe present", the source computes `bisect.bisect_right` and a
start offset on the (always empty) sparse index — both pure — and then
evaluates `open(self.data_path, ...)`: the constructor stored the path
in `self.db_path` and no attribute `data_path` is ever assigned, so this
raises `AttributeError` unconditionally. -/
def SSTableReader.get (r : SSTableReader) (key : String) : Except PyErr (Option String) :=
  match r.bloom_filter with
  | none => .error .attributeError
  | some bf =>
    (bf.not_contains key).bind fun nc =>
    if nc then .ok none
    else .error .attributeError

/-! The engine (`src/lsm_engine.py`).

The engine state carries the MemTable, the WAL file bytes, the written
data files and the `SortedDict` cache of open readers (an association
list kept ascending by file path).  `time.time() * 1e6` strictly
increases between flushes; it is modelled by the `timestamp` counter. -/

/-- The engine state. -/
structure LSMEngine where
  capacity : Nat
  sparsity_index : Nat
  timestamp : Nat
  memtable : MemTable
  walBytes : List Nat
  dataFiles : List (String × List Nat)
  index_cache : List (String × SSTableReader)

/-- Insertion into the `SortedDict` cache, keyed by path string. -/
def sdInsert : List (String × SSTableReader) → String → SSTableReader →
    List (String × SSTableReader)
  | [], k, v => [(k, v)]
  | p :: rest, k, v =>
    if k < p.1 then (k, v) :: p :: rest
    else if k = p.1 then (k, v) :: rest
    else p :: sdInsert rest k v

/-- Decimal string of a natural number (Python `str(n)` / f-string). -/
def natStr (n : Nat) : String := String.mk ((natDigits n).map Char.ofNat)

/-- Model of `LSMEngine.flush`: no-op on an empty MemTable (`if not
self.memtable`); otherwise write the sorted items through
`SSTableWriter.write` into a pair of timestamp-named files, clear the
MemTable (see `MemTable.clear`) and the WAL, and register a fresh
`SSTableReader` in the cache. -/
noncomputable def LSMEngine.flush (e : LSMEngine) : Except PyErr LSMEngine :=
  if e.memtable.len = 0 then .ok e
  else
    let data_filename := natStr e.timestamp ++ ".sst"
    (SSTableWriter.write e.sparsity_index e.memtable.get_sorted_items).bind fun db =>
    (SSTableReader.init data_filename db.2).map fun reader =>
      { e with
        memtable := e.memtable.clear,
        walBytes := [],
        dataFiles := e.dataFiles ++ [(data_filename, db.1)],
        index_cache := sdInsert e.index_cache data_filename reader,
        timestamp := e.timestamp + 1 }

/-- Model of `LSMEngine.set`: append to the WAL first, then apply to the
MemTable, then flush if the capacity is reached. -/
noncomputable def LSMEngine.set (e : LSMEngine) (key value : String) : Except PyErr LSMEngine :=
  (WAL.append e.walBytes key value).bind fun wal2 =>
  let e2 := { e with walBytes := wal2, memtable := e.memtable.set key value }
  if e2.capacity ≤ e2.memtable.len then e2.flush else .ok e2

/-- The sorted-file search loop of `LSMEngine.get`, over
`reversed(self.index_cache.keys())`: return the first reader hit. -/
def LSMEngine.getGo (key : String) : List (String × SSTableReader) →
    Except PyErr (Option String)
  | [] => .ok none
  | r :: rest =>
    (r.2.get key).bind fun v =>
      match v with
      | some value => .ok (some value)
      | none => LSMEngine.getGo key rest

/-- Model of `LSMEngine.get`: the MemTable first, then the cached sorted
files from most recent to oldest. -/
def LSMEngine.get (e : LSMEngine) (key : String) : Except PyErr (Option String) :=
  match e.memtable.get key with
  | some v => .ok (some v)
  | none => LSMEngine.getGo key e.index_cache.reverse

/-- Model of `LSMEngine(db_folder, capacity, sparsity_index)` startup:
replay the WAL into a fresh MemTable (an entry with no value would be a
delete and is skipped), then open a reader for every existing
`.sst`/`.index` pair of the storage directory (given here as the list of
`(sst path, index bytes)` pairs; the `SortedDict` cache orders them by
path whatever the scan order).  The WAL file itself is kept. -/
noncomputable def LSMEngine.init (capacity sparsity_index now : Nat) (walFile : List Nat)
    (dirFiles : List (String × List Nat)) : Except PyErr LSMEngine :=
  (WAL.replay walFile).bind fun entries =>
  let mt := entries.foldl
    (fun mt e => match e.2 with | some v => mt.set e.1 v | none => mt) MemTable.mkEmpty
  (dirFiles.foldlM (fun cache pf =>
      (SSTableReader.init pf.1 pf.2).map fun r => sdInsert cache pf.1 r) []).map fun cache =>
  { capacity := capacity, sparsity_index := sparsity_index, timestamp := now, memtable := mt,
    walBytes := walFile, dataFiles := [], index_cache := cache }

/-- Apply a list of `set` operations, in order, to a fresh MemTable. -/
def MemTable.fromOps (ops : List (String × String)) : MemTable :=
  ops.foldl (fun mt p => mt.set p.1 p.2) MemTable.mkEmpty

/-- The most recently set value for `k` in an operation sequence. -/
def mostRecent (ops : List (String × String)) (k : String) : Option String :=
  ops.foldl (fun acc p => if p.1 = k then some p.2 else acc) none

/-- A freshly opened engine over an empty directory (test fixture). -/
def engineNoFiles : LSMEngine :=
  { capacity := 50, sparsity_index := 10, timestamp := 0, memtable := MemTable.mkEmpty,
    walBytes := [], dataFiles := [], index_cache := [] }

/-- An engine as startup builds it over one existing sorted file whose
bloom filter has one bit, set — it contains every key (test fixture). -/
def engineOneFile : LSMEngine :=
  { capacity := 50, sparsity_index := 10, timestamp := 5, memtable := MemTable.mkEmpty,
    walBytes := [], dataFiles := [("1.sst", [])],
    index_cache := [("1.sst", ⟨"1.sst", [], some ⟨1, 1/100, 1, 1, 1⟩⟩)] }

/-- An engine with MemTable capacity 3 over an empty directory (the
flush scenario of the spec: three `set` calls trigger a flush). -/
def engineCap3 : LSMEngine :=
  { capacity := 3, sparsity_index := 10, timestamp := 0, memtable := MemTable.mkEmpty,
    walBytes := [], dataFiles := [], index_cache := [] }

/-- The bit array `add(key)` leaves in `bf`: each of the `hash_count`
SHA-256 positions modulo `size` is OR-ed in. -/
def bloomBitsAdd (bf : BloomFilter) (key : String) : Nat :=
  ((List.range bf.hash_count).map (fun i => sha256Nat (utf8Encode key ++ [i]) % bf.size)).foldl (fun a h => a ||| (1 <<< h)) bf.bit_array

/-- The filter `add(key)` returns on the non-raising path. -/
def bloomAddPure (bf : BloomFilter) (key : String) : BloomFilter :=
  { bf with bit_array := bloomBitsAdd bf key }

/-- The bloom filter `SSTableWriter.write` builds for three entries
(`capacity = 3`, the writer's fixed error rate `0.01`), before any add. -/
noncomputable def bf3Start : BloomFilter :=
  { capacity := 3, error_rate := 1/100, size := BloomFilter._get_size 3 (1/100),
    hash_count := BloomFilter._get_hash_count (BloomFilter._get_size 3 (1/100)) 3,
    bit_array := 0 }

/-- That filter after adding the three keys of the flush scenario. -/
noncomputable def bf3Final : BloomFilter :=
  bloomAddPure (bloomAddPure (bloomAddPure bf3Start "user:1") "user:2") "user:3"

/-- The data-file bytes of the flush scenario:
`"user:1\talice\nuser:2\tbob\nuser:3\tcharlie\n"`. -/
def sstData3 : List Nat :=
  [117, 115, 101, 114, 58, 49, 9, 97, 108, 105, 99, 101, 10, 117, 115, 101, 114, 58, 50, 9,
   98, 111, 98, 10, 117, 115, 101, 114, 58, 51, 9, 99, 104, 97, 114, 108, 105, 101, 10]

/-- The one checkpoint line of its index file: `"user:1\t0\n"`. -/
def idxLine3 : List Nat := [117, 115, 101, 114, 58, 49, 9, 48, 10]

/-! Theorems. -/
theorem natDigits_ne_nil (n : Nat) : natDigits n ≠ [] := by
  rw [natDigits]
  split <;> simp

theorem natDigits_digits (n : Nat) : ∀ d ∈ natDigits n, isDigitByte d = true := by
  rw [natDigits]
  split
  next h =>
    intro d hd
    simp at hd
    simp [isDigitByte, hd]
    omega
  next h =>
    intro d hd
    rw [List.mem_append] at hd
    rcases hd with hd | hd
    · exact natDigits_digits (n / 10) d hd
    · simp at hd
      have : n % 10 < 10 := Nat.mod_lt _ (by omega)
      simp [isDigitByte, hd]
      omega
  decreasing_by exact Nat.div_lt_self (by omega) (by omega)

theorem digitsVal_append (l1 l2 : List Nat) :
    digitsVal (l1 ++ l2) = l2.foldl (fun a d => a * 10 + (d - 48)) (digitsVal l1) := by
  simp [digitsVal, List.foldl_append]

theorem digitsVal_natDigits (n : Nat) : digitsVal (natDigits n) = n := by
  rw [natDigits]
  split
  next h =>
    simp [digitsVal]
  next h =>
    rw [digitsVal_append, digitsVal_natDigits (n / 10)]
    simp
    omega
  decreasing_by exact Nat.div_lt_self (by omega) (by omega)
theorem utf8SeqLen_pos (b : Nat) : 1 ≤ utf8SeqLen b := by
  simp only [utf8SeqLen]
  split
  · omega
  · split
    · omega
    · split <;> omega

theorem char_toNat_valid (c : Char) :
    c.toNat < 55296 ∨ (57343 < c.toNat ∧ c.toNat < 1114112) := by
  have h := c.valid
  simp only [UInt32.isValidChar, Nat.isValidChar] at h
  exact h

theorem char_toNat_lt (c : Char) : c.toNat < 1114112 := by
  rcases char_toNat_valid c with h | h
  · omega
  · exact h.2

theorem utf8DecodeSeq_encodeChar (c : Char) :
    utf8DecodeSeq (utf8EncodeChar c) = some c.toNat := by
  have hv := char_toNat_valid c
  have hlt := char_toNat_lt c
  simp only [utf8EncodeChar]
  split
  next h1 => simp [utf8DecodeSeq, h1]
  next h1 =>
    split
    next h2 =>
      rw [utf8DecodeSeq, if_pos (by omega)]
      simp only [Option.some.injEq]
      omega
    next h2 =>
      split
      next h3 =>
        rw [utf8DecodeSeq, if_pos (by omega)]
        simp only [Option.some.injEq]
        omega
      next h3 =>
        rw [utf8DecodeSeq, if_pos (by omega)]
        simp only [Option.some.injEq]
        omega

theorem utf8DecodeList_encodeChar (c : Char) (rest : List Nat) :
    utf8DecodeList (utf8EncodeChar c ++ rest) =
      (utf8DecodeList rest).map (fun cs => c :: cs) := by
  have hv := char_toNat_valid c
  have hdecseq := utf8DecodeSeq_encodeChar c
  by_cases h1 : c.toNat < 128
  · have he : utf8EncodeChar c = [c.toNat] := by
      simp only [utf8EncodeChar]
      rw [if_pos h1]
    rw [he] at hdecseq ⊢
    simp only [List.cons_append, List.nil_append]
    rw [utf8DecodeList]
    have hsl : utf8SeqLen c.toNat = 1 := by
      simp only [utf8SeqLen]
      rw [if_pos h1]
    rw [hsl]
    have ht : (c.toNat :: rest).take 1 = [c.toNat] := rfl
    have hd : (c.toNat :: rest).drop 1 = rest := rfl
    rw [ht, hd, hdecseq]
    cases utf8DecodeList rest <;> simp
  · by_cases h2 : c.toNat < 2048
    · have he : utf8EncodeChar c = [192 + c.toNat / 64, 128 + c.toNat % 64] := by
        simp only [utf8EncodeChar]
        rw [if_neg h1, if_pos h2]
      rw [he] at hdecseq ⊢
      simp only [List.cons_append, List.nil_append]
      rw [utf8DecodeList]
      have hsl : utf8SeqLen (192 + c.toNat / 64) = 2 := by
        simp only [utf8SeqLen]
        rw [if_neg (by omega), if_pos (by omega)]
      rw [hsl]
      have ht : ((192 + c.toNat / 64) :: (128 + c.toNat % 64) :: rest).take 2 =
          [192 + c.toNat / 64, 128 + c.toNat % 64] := rfl
      have hd : ((192 + c.toNat / 64) :: (128 + c.toNat % 64) :: rest).drop 2 = rest := rfl
      rw [ht, hd, hdecseq]
      cases utf8DecodeList rest <;> simp
    · by_cases h3 : c.toNat < 65536
      · have he : utf8EncodeChar c =
            [224 + c.toNat / 4096, 128 + c.toNat / 64 % 64, 128 + c.toNat % 64] := by
          simp only [utf8EncodeChar]
          rw [if_neg h1, if_neg h2, if_pos h3]
        rw [he] at hdecseq ⊢
        simp only [List.cons_append, List.nil_append]
        rw [utf8DecodeList]
        have hsl : utf8SeqLen (224 + c.toNat / 4096) = 3 := by
          simp only [utf8SeqLen]
          rw [if_neg (by omega), if_neg (by omega), if_pos (by omega)]
        rw [hsl]
        have ht : ((224 + c.toNat / 4096) :: (128 + c.toNat / 64 % 64) ::
            (128 + c.toNat % 64) :: rest).take 3 =
            [224 + c.toNat / 4096, 128 + c.toNat / 64 % 64, 128 + c.toNat % 64] := rfl
        have hd : ((224 + c.toNat / 4096) :: (128 + c.toNat / 64 % 64) ::
            (128 + c.toNat % 64) :: rest).drop 3 = rest := rfl
        rw [ht, hd, hdecseq]
        cases utf8DecodeList rest <;> simp
      · have hlt := char_toNat_lt c
        have he : utf8EncodeChar c = [240 + c.toNat / 262144, 128 + c.toNat / 4096 % 64,
            128 + c.toNat / 64 % 64, 128 + c.toNat % 64] := by
          simp only [utf8EncodeChar]
          rw [if_neg h1, if_neg h2, if_neg h3]
        rw [he] at hdecseq ⊢
        simp only [List.cons_append, List.nil_append]
        rw [utf8DecodeList]
        have hsl : utf8SeqLen (240 + c.toNat / 262144) = 4 := by
          simp only [utf8SeqLen]
          rw [if_neg (by omega), if_neg (by omega), if_neg (by omega)]
        rw [hsl]
        have ht : ((240 + c.toNat / 262144) :: (128 + c.toNat / 4096 % 64) ::
            (128 + c.toNat / 64 % 64) :: (128 + c.toNat % 64) :: rest).take 4 =
            [240 + c.toNat / 262144, 128 + c.toNat / 4096 % 64,
              128 + c.toNat / 64 % 64, 128 + c.toNat % 64] := rfl
        have hd : ((240 + c.toNat / 262144) :: (128 + c.toNat / 4096 % 64) ::
            (128 + c.toNat / 64 % 64) :: (128 + c.toNat % 64) :: rest).drop 4 = rest := rfl
        rw [ht, hd, hdecseq]
        cases utf8DecodeList rest <;> simp

theorem utf8DecodeList_encode_append (s : String) (rest : List Nat) :
    utf8DecodeList (utf8Encode s ++ rest) =
      (utf8DecodeList rest).map (fun cs => s.data ++ cs) := by
  rcases s with ⟨cs⟩
  induction cs with
  | nil =>
    simp only [utf8Encode, List.map_nil, List.flatten_nil, List.nil_append]
    cases utf8DecodeList rest <;> simp
  | cons c cs ih =>
    have h : utf8Encode (String.mk (c :: cs)) = utf8EncodeChar c ++ utf8Encode (String.mk cs) := by
      simp [utf8Encode]
    rw [h, List.append_assoc, utf8DecodeList_encodeChar, ih]
    cases utf8DecodeList rest <;> simp

/-- UTF-8 decoding inverts encoding: the round trip over the wire format. -/
theorem utf8Decode_encode (s : String) : utf8Decode (utf8Encode s) = some s := by
  have h := utf8DecodeList_encode_append s []
  simp only [List.append_nil] at h
  rw [utf8Decode, h, utf8DecodeList]
  simp

/-! CRC-32 (model of `zlib.crc32`): reflected polynomial 0xEDB88320,
initial value and final xor 0xFFFFFFFF. -/

theorem readU32_u32be (n : Nat) (h : n < 4294967296) : readU32 (u32be n) = n := by
  simp only [readU32, u32be, List.getD]
  simp
  omega

theorem u32be_length (n : Nat) : (u32be n).length = 4 := rfl

/-! Facts about the byte-level primitives. -/

theorem utf8EncodeChar_ne_nil (c : Char) : utf8EncodeChar c ≠ [] := by
  simp only [utf8EncodeChar]
  split
  · simp
  · split
    · simp
    · split <;> simp

theorem utf8Encode_eq_nil_iff (s : String) : utf8Encode s = [] ↔ s = "" := by
  constructor
  · intro h
    rcases s with ⟨cs⟩
    cases cs with
    | nil => rfl
    | cons c cs =>
      exfalso
      simp only [utf8Encode, List.map_cons, List.flatten_cons, List.append_eq_nil] at h
      exact utf8EncodeChar_ne_nil c h.1
  · intro h
    subst h
    rfl

theorem char_toNat_ofNat (n : Nat) (h : n < 55296) : (Char.ofNat n).toNat = n := by
  have hv : n.isValidChar := Or.inl h
  simp only [Char.ofNat, hv, dite_true, dif_pos, Char.toNat, Char.ofNatAux]
  simp [UInt32.toNat, BitVec.toNat_ofNatLt]

theorem utf8DecodeList_ascii (l : List Nat) (h : ∀ b ∈ l, b < 128) :
    utf8DecodeList l = some (l.map Char.ofNat) := by
  induction l with
  | nil => simp [utf8DecodeList]
  | cons b bs ih =>
    rw [utf8DecodeList]
    have hb : b < 128 := h b (List.mem_cons_self b bs)
    have hsl : utf8SeqLen b = 1 := by
      simp only [utf8SeqLen]
      rw [if_pos hb]
    rw [hsl]
    have ht : (b :: bs).take 1 = [b] := rfl
    have hd : (b :: bs).drop 1 = bs := rfl
    rw [ht, hd]
    rw [utf8DecodeSeq, if_pos hb]
    rw [ih (fun x hx => h x (List.mem_cons_of_mem b hx))]
    simp

theorem utf8Decode_ascii (l : List Nat) (h : ∀ b ∈ l, b < 128) :
    utf8Decode l = some (String.mk (l.map Char.ofNat)) := by
  simp [utf8Decode, utf8DecodeList_ascii l h]

theorem dropWhile_eq_self_of (p : Char → Bool) (cs : List Char)
    (h : ∀ c ∈ cs, p c = false) : cs.dropWhile p = cs := by
  cases cs with
  | nil => rfl
  | cons c cs => simp [List.dropWhile_cons, h c (List.mem_cons_self c cs)]

theorem foldlDigits_map (l : List Nat) : (∀ b ∈ l, b < 128) → ∀ (a : Nat),
    List.foldl (fun a c => a * 10 + (c.toNat - 48)) a (l.map Char.ofNat) =
      List.foldl (fun a d => a * 10 + (d - 48)) a l := by
  induction l with
  | nil => intro _ a; rfl
  | cons d ds ih =>
    intro h a
    simp only [List.map_cons, List.foldl_cons]
    rw [char_toNat_ofNat d (by have := h d (List.mem_cons_self d ds); omega)]
    exact ih (fun x hx => h x (List.mem_cons_of_mem d hx)) _

theorem pyInt_natDigits (n : Nat) :
    pyInt (String.mk ((natDigits n).map Char.ofNat)) = .ok (n : Int) := by
  have hd := natDigits_digits n
  have hne := natDigits_ne_nil n
  have hrange : ∀ b ∈ natDigits n, 48 ≤ b ∧ b ≤ 57 := by
    intro b hb
    have := hd b hb
    simp only [isDigitByte, Bool.and_eq_true, decide_eq_true_eq] at this
    omega
  have hdigit : ∀ c ∈ (natDigits n).map Char.ofNat, isDigitChar c = true := by
    intro c hc
    obtain ⟨b, hb, rfl⟩ := List.mem_map.mp hc
    have h1 := hrange b hb
    simp only [isDigitChar, char_toNat_ofNat b (by omega), Bool.and_eq_true, decide_eq_true_eq]
    omega
  have hnospace : ∀ c ∈ (natDigits n).map Char.ofNat, isPySpace c = false := by
    intro c hc
    obtain ⟨b, hb, rfl⟩ := List.mem_map.mp hc
    have h1 := hrange b hb
    simp only [isPySpace, char_toNat_ofNat b (by omega), Bool.or_eq_false_iff,
      Bool.and_eq_false_iff, beq_eq_false_iff_ne, ne_eq, decide_eq_false_iff_not]
    omega
  have hstrip : ((((natDigits n).map Char.ofNat).dropWhile isPySpace).reverse.dropWhile
      isPySpace).reverse = (natDigits n).map Char.ofNat := by
    rw [dropWhile_eq_self_of _ _ hnospace]
    rw [dropWhile_eq_self_of _ _ (fun c hc => hnospace c (List.mem_reverse.mp hc))]
    exact List.reverse_reverse _
  obtain ⟨d, ds, hcons⟩ := List.exists_cons_of_ne_nil hne
  have hd48 : 48 ≤ d ∧ d ≤ 57 := hrange d (by rw [hcons]; exact List.mem_cons_self d ds)
  have hdval : (Char.ofNat d).toNat = d := char_toNat_ofNat d (by omega)
  have hhead : ((natDigits n).map Char.ofNat).head? = some (Char.ofNat d) := by
    rw [hcons]
    rfl
  have hne1 : ¬(((natDigits n).map Char.ofNat).head? = some '-') := by
    rw [hhead]
    intro hEq
    have := congrArg (fun o => (Option.getD o 'x').toNat) hEq
    simp only [Option.getD_some] at this
    rw [hdval] at this
    have h45 : ('-').toNat = 45 := rfl
    omega
  have hne2 : ¬(((natDigits n).map Char.ofNat).head? = some '+') := by
    rw [hhead]
    intro hEq
    have := congrArg (fun o => (Option.getD o 'x').toNat) hEq
    simp only [Option.getD_some] at this
    rw [hdval] at this
    have h43 : ('+').toNat = 43 := rfl
    omega
  have hdigits : pyIntDigits ((natDigits n).map Char.ofNat) = some n := by
    rw [pyIntDigits, if_pos]
    · have hval : digitCharsVal ((natDigits n).map Char.ofNat) = n := by
        rw [digitCharsVal, foldlDigits_map _ (fun b hb => by have := hrange b hb; omega)]
        exact digitsVal_natDigits n
      rw [hval]
    · constructor
      · simp [hcons]
      · rw [List.all_eq_true]
        exact hdigit
  rw [pyInt]
  simp only [hstrip]
  rw [if_neg hne1, if_neg hne2, hdigits]

theorem utf8EncodeChar_lt_256 (c : Char) : ∀ b ∈ utf8EncodeChar c, b < 256 := by
  have hlt := char_toNat_lt c
  simp only [utf8EncodeChar]
  split
  next h1 =>
    intro b hb
    simp only [List.mem_singleton] at hb
    omega
  next h1 =>
    split
    next h2 =>
      intro b hb
      simp only [List.mem_cons, List.not_mem_nil, or_false] at hb
      rcases hb with rfl | rfl <;> omega
    next h2 =>
      split
      next h3 =>
        intro b hb
        simp only [List.mem_cons, List.not_mem_nil, or_false] at hb
        rcases hb with rfl | rfl | rfl <;> omega
      next h3 =>
        intro b hb
        simp only [List.mem_cons, List.not_mem_nil, or_false] at hb
        rcases hb with rfl | rfl | rfl | rfl <;> omega

theorem utf8Encode_lt_256 (s : String) : ∀ b ∈ utf8Encode s, b < 256 := by
  intro b hb
  rw [utf8Encode, List.mem_flatten] at hb
  obtain ⟨l, hl, hbl⟩ := hb
  obtain ⟨c, _, rfl⟩ := List.mem_map.mp hl
  exact utf8EncodeChar_lt_256 c b hbl

theorem crc32Round_lt (c : Nat) (h : c < 4294967296) : crc32Round c < 4294967296 := by
  rw [crc32Round]
  split
  · have h2 : c / 2 ^^^ 3988292384 < 2 ^ 32 :=
      Nat.xor_lt_two_pow (by omega) (by norm_num)
    omega
  · omega

theorem crc32RoundIter_lt (k : Nat) : ∀ c, c < 4294967296 → crc32Round^[k] c < 4294967296 := by
  induction k with
  | zero => intro c h; simpa using h
  | succ k ih =>
    intro c h
    rw [Function.iterate_succ_apply]
    exact ih _ (crc32Round_lt c h)

theorem crc32Byte_lt (crc b : Nat) (hc : crc < 4294967296) (hb : b < 256) :
    crc32Byte crc b < 4294967296 := by
  rw [crc32Byte]
  apply crc32RoundIter_lt
  have h2 : crc ^^^ b < 2 ^ 32 := Nat.xor_lt_two_pow (by omega) (by omega)
  omega

theorem crc32_foldl_lt : ∀ (bytes : List Nat) (crc : Nat), (∀ b ∈ bytes, b < 256) →
    crc < 4294967296 → List.foldl crc32Byte crc bytes < 4294967296 := by
  intro bytes
  induction bytes with
  | nil => intro crc _ h; simpa using h
  | cons b bs ih =>
    intro crc hb hc
    rw [List.foldl_cons]
    exact ih _ (fun x hx => hb x (List.mem_cons_of_mem b hx))
      (crc32Byte_lt crc b hc (hb b (List.mem_cons_self b bs)))

theorem crc32_lt (bytes : List Nat) (h : ∀ b ∈ bytes, b < 256) :
    crc32 bytes < 4294967296 := by
  rw [crc32]
  have h1 := crc32_foldl_lt bytes 4294967295 h (by omega)
  have h2 : List.foldl crc32Byte 4294967295 bytes ^^^ 4294967295 < 2 ^ 32 :=
    Nat.xor_lt_two_pow (by omega) (by norm_num)
  omega

theorem natDigits_length_le (k : Nat) : ∀ n, n < 10 ^ (k + 1) → (natDigits n).length ≤ k + 1 := by
  induction k with
  | zero =>
    intro n h
    rw [natDigits, dif_pos (by omega)]
    simp
  | succ k ih =>
    intro n h
    rw [natDigits]
    split
    · simp
    next h10 =>
      have hdiv : n / 10 < 10 ^ (k + 1) := by
        rw [Nat.div_lt_iff_lt_mul (by omega)]
        calc n < 10 ^ (k + 1 + 1) := h
        _ = 10 ^ (k + 1) * 10 := by ring
      have := ih (n / 10) hdiv
      simp only [List.length_append, List.length_cons, List.length_nil]
      omega

theorem crc32_digits_length_lt (n : Nat) (h : n < 4294967296) :
    (natDigits n).length < 4294967296 := by
  have h10 : n < 10 ^ 10 := by norm_num at h ⊢; omega
  have := natDigits_length_le 9 n h10
  omega

theorem WAL.replayGo_record (key value : String) (more : List Nat)
    (acc : List (String × Option String))
    (hk : (utf8Encode key).length < 4294967296)
    (hv : (utf8Encode value).length < 4294967296)
    (hvne : value ≠ "") :
    WAL.replayGo (WAL.recordBytes key value ++ more) acc =
      WAL.replayGo more ((key, some value) :: acc) := by
  have hNlt : crc32 (utf8Encode key ++ utf8Encode value) < 4294967296 := by
    apply crc32_lt
    intro b hb
    rcases List.mem_append.mp hb with h | h
    · exact utf8Encode_lt_256 key b h
    · exact utf8Encode_lt_256 value b h
  set kb := utf8Encode key with hkb
  set vb := utf8Encode value with hvb
  set N := crc32 (kb ++ vb) with hN
  set cb := natDigits N with hcb
  have hcblt : cb.length < 4294967296 := crc32_digits_length_lt N hNlt
  have hB : WAL.recordBytes key value ++ more =
      u32be kb.length ++ (u32be vb.length ++ (u32be cb.length ++
        (kb ++ (vb ++ (cb ++ more))))) := by
    rw [WAL.recordBytes]
    simp only [List.append_assoc]
  rw [hB]
  rw [WAL.replayGo]
  have hlen : ¬((u32be kb.length ++ (u32be vb.length ++ (u32be cb.length ++
      (kb ++ (vb ++ (cb ++ more)))))).length < 12) := by
    simp only [List.length_append, u32be, List.length_cons, List.length_nil]
    omega
  rw [if_neg hlen]
  have ht0 : (u32be kb.length ++ (u32be vb.length ++ (u32be cb.length ++
      (kb ++ (vb ++ (cb ++ more)))))).take 4 = u32be kb.length :=
    List.take_left' rfl
  have hd4 : (u32be kb.length ++ (u32be vb.length ++ (u32be cb.length ++
      (kb ++ (vb ++ (cb ++ more)))))).drop 4 =
      u32be vb.length ++ (u32be cb.length ++ (kb ++ (vb ++ (cb ++ more)))) :=
    List.drop_left' rfl
  have hd8 : (u32be kb.length ++ (u32be vb.length ++ (u32be cb.length ++
      (kb ++ (vb ++ (cb ++ more)))))).drop 8 =
      u32be cb.length ++ (kb ++ (vb ++ (cb ++ more))) := by
    have : (8 : Nat) = 4 + 4 := by norm_num
    rw [this, ← List.drop_drop, hd4]
    exact List.drop_left' rfl
  have hd12 : (u32be kb.length ++ (u32be vb.length ++ (u32be cb.length ++
      (kb ++ (vb ++ (cb ++ more)))))).drop 12 = kb ++ (vb ++ (cb ++ more)) := by
    have h12e : (12 : Nat) = 8 + 4 := by norm_num
    rw [h12e, ← List.drop_drop, hd8]
    exact List.drop_left' rfl
  simp only [ht0, hd4, hd8, hd12]
  have ht4 : (u32be vb.length ++ (u32be cb.length ++ (kb ++ (vb ++ (cb ++ more))))).take 4 =
      u32be vb.length := List.take_left' rfl
  have ht8 : (u32be cb.length ++ (kb ++ (vb ++ (cb ++ more)))).take 4 = u32be cb.length :=
    List.take_left' rfl
  have r32a : readU32 (u32be kb.length) = kb.length := readU32_u32be _ hk
  have r32b : readU32 (u32be vb.length) = vb.length := readU32_u32be _ hv
  have r32c : readU32 (u32be cb.length) = cb.length := readU32_u32be _ hcblt
  have hKt : (kb ++ (vb ++ (cb ++ more))).take kb.length = kb := List.take_left kb _
  have hKd : (kb ++ (vb ++ (cb ++ more))).drop kb.length = vb ++ (cb ++ more) :=
    List.drop_left kb _
  have hVt : (vb ++ (cb ++ more)).take vb.length = vb := List.take_left vb _
  have hVd : (vb ++ (cb ++ more)).drop vb.length = cb ++ more := List.drop_left vb _
  have hCt : (cb ++ more).take cb.length = cb := List.take_left cb _
  have hCd : (cb ++ more).drop cb.length = more := List.drop_left cb _
  have hcb128 : ∀ b ∈ cb, b < 128 := by
    intro b hb
    have := natDigits_digits N b (by rw [← hcb]; exact hb)
    simp only [isDigitByte, Bool.and_eq_true, decide_eq_true_eq] at this
    omega
  have hdec_cb : utf8Decode cb = some (String.mk (cb.map Char.ofNat)) :=
    utf8Decode_ascii cb hcb128
  have hpy : pyInt (String.mk (cb.map Char.ofNat)) = .ok (N : Int) := by
    rw [hcb]
    exact pyInt_natDigits N
  have hdec_kb : utf8Decode kb = some key := by
    rw [hkb]
    exact utf8Decode_encode key
  have hdec_vb : utf8Decode vb = some value := by
    rw [hvb]
    exact utf8Decode_encode value
  have hvpos : 0 < vb.length := by
    rcases Nat.eq_zero_or_pos vb.length with h0 | h0
    · exfalso
      exact hvne ((utf8Encode_eq_nil_iff value).mp (by rw [← hvb]; exact List.eq_nil_of_length_eq_zero h0))
    · exact h0
  simp only [ht4, ht8, r32a, r32b, r32c, hKt, hKd, hVt, hVd, hCt, hCd, lt_self_iff_false,
    if_false, hdec_cb, hpy, hdec_kb, hdec_vb, hvpos, if_true, ne_eq, not_true_eq_false,
    Nat.cast_inj]

theorem WAL.replayGo_nil (acc : List (String × Option String)) :
    WAL.replayGo [] acc = .ok acc.reverse := by
  rw [WAL.replayGo, if_pos (by simp)]

theorem WAL.replayGo_records (pairs : List (String × String))
    (hsz : ∀ p ∈ pairs,
      (utf8Encode p.1).length < 4294967296 ∧ (utf8Encode p.2).length < 4294967296)
    (hne : ∀ p ∈ pairs, p.2 ≠ "") :
    ∀ acc, WAL.replayGo ((pairs.map (fun p => WAL.recordBytes p.1 p.2)).flatten) acc =
      .ok (acc.reverse ++ pairs.map (fun p => (p.1, some p.2))) := by
  induction pairs with
  | nil =>
    intro acc
    simpa using WAL.replayGo_nil acc
  | cons p ps ih =>
    intro acc
    simp only [List.map_cons, List.flatten_cons]
    rw [WAL.replayGo_record p.1 p.2 _ acc (hsz p (List.mem_cons_self p ps)).1
      (hsz p (List.mem_cons_self p ps)).2 (hne p (List.mem_cons_self p ps))]
    rw [ih (fun q hq => hsz q (List.mem_cons_of_mem p hq))
      (fun q hq => hne q (List.mem_cons_of_mem p hq)) ((p.1, some p.2) :: acc)]
    simp

theorem WAL.appendAll_ok (pairs : List (String × String)) : ∀ (file0 file : List Nat),
    WAL.appendAll file0 pairs = .ok file →
    file = file0 ++ (pairs.map (fun p => WAL.recordBytes p.1 p.2)).flatten ∧
      ∀ p ∈ pairs,
        (utf8Encode p.1).length < 4294967296 ∧ (utf8Encode p.2).length < 4294967296 := by
  induction pairs with
  | nil =>
    intro f0 f h
    simp only [WAL.appendAll, List.foldlM_nil] at h
    cases h
    simp
  | cons p ps ih =>
    intro f0 f h
    rw [WAL.appendAll, List.foldlM_cons] at h
    cases hap : WAL.append f0 p.1 p.2 with
    | error e =>
      rw [hap] at h
      simp only [Bind.bind, Except.bind] at h
      exact Except.noConfusion h
    | ok f1 =>
      rw [hap] at h
      simp only [Bind.bind, Except.bind] at h
      have h2 : WAL.appendAll f1 ps = .ok f := h
      rw [WAL.append] at hap
      by_cases hsz : (utf8Encode p.1).length < 4294967296 ∧
          (utf8Encode p.2).length < 4294967296
      · rw [if_pos hsz] at hap
        have hf1 : f1 = f0 ++ WAL.recordBytes p.1 p.2 := by
          cases hap
          rfl
        obtain ⟨hfile, hsizes⟩ := ih f1 f h2
        constructor
        · rw [hfile, hf1]
          simp [List.append_assoc]
        · intro q hq
          rcases List.mem_cons.mp hq with rfl | hq2
          · exact hsz
          · exact hsizes q hq2
      · rw [if_neg hsz] at hap
        exact Except.noConfusion hap

/-- C4: the claim states that for every byte content of the WAL file,
replay stops and returns the validated prefix on any short read — in
the key, value, or checksum region — and never raises.  The source
checks the key and value reads but not the checksum read: on a file
holding exactly one 12-byte header that declares `checksum_len = 1`
with no bytes after it, `f.read(1)` returns `b""` and
`int(b"".decode("utf-8"))` raises `ValueError` instead of returning
the empty record list.  This theorem evaluates the model at that
failing input. -/
theorem C4_replay_raises_on_torn_checksum_region :
    WAL.replay [0, 0, 0, 0, 0, 0, 0, 0, 0, 0, 0, 1] = .error .valueError := by
  simp +decide [WAL.replay, WAL.replayGo, readU32, utf8Decode, utf8DecodeList, pyInt,
    pyIntDigits]

/-- C5, counterexample: the round-trip claim fails on a pair with an
empty value.  `append("a", "")` writes a record with `val_len = 0`,
which `replay` reads back as the tombstone `("a", None)`, not
`("a", "")`. -/
theorem C5_counterexample_empty_value :
    WAL.append [] "a" "" = .ok (WAL.recordBytes "a" "") ∧
    WAL.replay (WAL.recordBytes "a" "") = .ok [("a", (none : Option String))] ∧
    (("a", (none : Option String)) : String × Option String) ≠ ("a", some "") := by
  refine ⟨?_, ?_, by simp⟩
  · rw [WAL.append, if_pos]
    · rw [List.nil_append]
    · exact ⟨by simp +decide [utf8Encode, utf8EncodeChar], by simp [utf8Encode]⟩
  · simp +decide [WAL.replay, WAL.replayGo, WAL.recordBytes, readU32, utf8Decode,
      utf8DecodeList, utf8DecodeSeq, utf8SeqLen, utf8Encode, utf8EncodeChar, pyInt,
      pyIntDigits, crc32, crc32Byte, crc32Round, natDigits, digitCharsVal, isDigitChar,
      isPySpace, u32be]

/-- C5 (amended): for every sequence of `(key, value)` pairs accepted by
`WAL.append` in which every value is nonempty, replaying the resulting
file returns exactly that sequence, in order, with each value present.
(As stated the claim fails for empty values, which the wire format
conflates with tombstones; see `C5_counterexample_empty_value`.) -/
theorem C5_wal_roundtrip (pairs : List (String × String)) (file : List Nat)
    (happ : WAL.appendAll [] pairs = .ok file)
    (hne : ∀ p ∈ pairs, p.2 ≠ "") :
    WAL.replay file = .ok (pairs.map (fun p => (p.1, some p.2))) := by
  obtain ⟨hfile, hsz⟩ := WAL.appendAll_ok pairs [] file happ
  rw [WAL.replay, hfile]
  simp only [List.nil_append]
  simpa using WAL.replayGo_records pairs hsz hne []

/-- Witness for `C5_wal_roundtrip` at the concrete input `[("a", "1")]`
(the file bytes are the one record `append("a", "1")` writes). -/
theorem C5_wal_roundtrip_witness :
    WAL.replay [0, 0, 0, 1, 0, 0, 0, 1, 0, 0, 0, 10, 97, 49, 49, 56, 50, 54, 55, 48, 51, 51,
      57, 53] = .ok [("a", some "1")] := by
  have hrec : WAL.recordBytes "a" "1" = [0, 0, 0, 1, 0, 0, 0, 1, 0, 0, 0, 10, 97, 49, 49, 56,
      50, 54, 55, 48, 51, 51, 57, 53] := by
    simp +decide [WAL.recordBytes, natDigits, crc32, crc32Byte, crc32Round, utf8Encode,
      utf8EncodeChar, u32be]
  have happ : WAL.appendAll [] [("a", "1")] = .ok [0, 0, 0, 1, 0, 0, 0, 1, 0, 0, 0, 10, 97,
      49, 49, 56, 50, 54, 55, 48, 51, 51, 57, 53] := by
    rw [WAL.appendAll, List.foldlM_cons]
    dsimp only
    rw [WAL.append, if_pos ⟨by simp +decide [utf8Encode, utf8EncodeChar],
      by simp +decide [utf8Encode, utf8EncodeChar]⟩]
    rw [List.nil_append, hrec]
    simp only [List.foldlM_nil]
    rw [bind_pure]
  exact C5_wal_roundtrip [("a", "1")] _ happ (by simp +decide)

/-! MemTable facts. -/

theorem dictSet_find (l : List (String × String)) (k k2 v : String) :
    (dictSet l k v).find? (fun p => p.1 == k2) =
      if k2 = k then some (k, v) else l.find? (fun p => p.1 == k2) := by
  induction l with
  | nil =>
    rw [dictSet]
    by_cases h : k2 = k
    · subst h
      simp [List.find?_cons]
    · have hb : (k == k2) = false := by
        simp only [beq_eq_false_iff_ne, ne_eq]
        intro hEq
        exact h hEq.symm
      simp [List.find?_cons, h, hb]
  | cons p rest ih =>
    rw [dictSet]
    by_cases hp : p.1 = k
    · rw [if_pos hp]
      by_cases h : k2 = k
      · subst h
        simp [List.find?_cons]
      · rw [if_neg h]
        have hk2 : (k == k2) = false := by
          simp only [beq_eq_false_iff_ne, ne_eq]
          intro hEq
          exact h hEq.symm
        have hp2 : (p.1 == k2) = false := by
          simp only [beq_eq_false_iff_ne, ne_eq, hp]
          intro hEq
          exact h hEq.symm
        simp [List.find?_cons, hk2, hp2]
    · rw [if_neg hp]
      by_cases hpk2 : p.1 = k2
      · have hb : (p.1 == k2) = true := by simp [hpk2]
        have hk2k : ¬(k2 = k) := by
          intro hEq
          exact hp (hpk2.trans hEq)
        rw [if_neg hk2k]
        simp [List.find?_cons, hb]
      · have hb : (p.1 == k2) = false := by simp [hpk2]
        simp only [List.find?_cons, hb]
        rw [ih]

theorem MemTable.get_set (mt : MemTable) (key value k2 : String) :
    (mt.set key value).get k2 = if k2 = key then some value else mt.get k2 := by
  rw [MemTable.get, MemTable.set]
  simp only
  rw [dictSet_find]
  split
  · rfl
  · rfl

theorem dictSet_keys_mem (l : List (String × String)) (k v : String) :
    ∀ x ∈ (dictSet l k v).map Prod.fst, x = k ∨ x ∈ l.map Prod.fst := by
  induction l with
  | nil =>
    intro x hx
    rw [dictSet] at hx
    simp at hx
    exact Or.inl hx
  | cons p rest ih =>
    intro x hx
    rw [dictSet] at hx
    split at hx
    · simp only [List.map_cons, List.mem_cons] at hx ⊢
      rcases hx with rfl | hx
      · exact Or.inl rfl
      · exact Or.inr (Or.inr hx)
    · simp only [List.map_cons, List.mem_cons] at hx ⊢
      rcases hx with rfl | hx
      · exact Or.inr (Or.inl rfl)
      · rcases ih x hx with h | h
        · exact Or.inl h
        · exact Or.inr (Or.inr h)

theorem dictSet_keys_nodup (l : List (String × String)) (k v : String)
    (h : (l.map Prod.fst).Nodup) : ((dictSet l k v).map Prod.fst).Nodup := by
  induction l with
  | nil =>
    rw [dictSet]
    simp
  | cons p rest ih =>
    rw [dictSet]
    simp only [List.map_cons, List.nodup_cons] at h
    split
    next hp =>
      simp only [List.map_cons, List.nodup_cons]
      exact ⟨by rw [← hp]; exact h.1, h.2⟩
    next hp =>
      simp only [List.map_cons, List.nodup_cons]
      constructor
      · intro hmem
        rcases dictSet_keys_mem rest k v p.1 hmem with hEq | hmem2
        · exact hp hEq
        · exact h.1 hmem2
      · exact ih h.2

theorem MemTable.fromOps_keys_nodup (ops : List (String × String)) :
    (((MemTable.fromOps ops)._data).map Prod.fst).Nodup := by
  suffices h : ∀ (mt : MemTable), ((mt._data).map Prod.fst).Nodup →
      (((ops.foldl (fun mt p => mt.set p.1 p.2) mt)._data).map Prod.fst).Nodup by
    exact h MemTable.mkEmpty (by simp [MemTable.mkEmpty])
  induction ops with
  | nil => intro mt h; exact h
  | cons p ops ih =>
    intro mt h
    rw [List.foldl_cons]
    exact ih (mt.set p.1 p.2) (dictSet_keys_nodup mt._data p.1 p.2 h)

theorem MemTable.fromOps_get (ops : List (String × String)) (k : String) :
    (MemTable.fromOps ops).get k = mostRecent ops k := by
  suffices h : ∀ (mt : MemTable),
      (ops.foldl (fun mt p => mt.set p.1 p.2) mt).get k =
        ops.foldl (fun acc p => if p.1 = k then some p.2 else acc) (mt.get k) by
    have h2 := h MemTable.mkEmpty
    rw [MemTable.fromOps, mostRecent]
    rw [h2]
    have : MemTable.mkEmpty.get k = none := rfl
    rw [this]
  induction ops with
  | nil => intro mt; rfl
  | cons p ops ih =>
    intro mt
    rw [List.foldl_cons, List.foldl_cons, ih (mt.set p.1 p.2), MemTable.get_set]
    by_cases hp : p.1 = k
    · rw [if_pos hp, if_pos hp.symm]
    · rw [if_neg hp, if_neg (fun hEq => hp hEq.symm)]

theorem pairLe_trans (a b c : String × String) :
    pairLeBool a b → pairLeBool b c → pairLeBool a c := by
  simp only [pairLeBool, decide_eq_true_eq]
  intro hab hbc
  rcases hab with h1 | ⟨h1, h2⟩
  · rcases hbc with h3 | ⟨h3, h4⟩
    · exact Or.inl (lt_trans h1 h3)
    · exact Or.inl (h3 ▸ h1)
  · rcases hbc with h3 | ⟨h3, h4⟩
    · exact Or.inl (h1 ▸ h3)
    · exact Or.inr ⟨h1.trans h3, le_trans h2 h4⟩

theorem pairLe_total (a b : String × String) : pairLeBool a b || pairLeBool b a := by
  simp only [pairLeBool, Bool.or_eq_true, decide_eq_true_eq]
  rcases lt_trichotomy a.1 b.1 with h | h | h
  · exact Or.inl (Or.inl h)
  · rcases le_total a.2 b.2 with h2 | h2
    · exact Or.inl (Or.inr ⟨h, h2⟩)
    · exact Or.inr (Or.inr ⟨h.symm, h2⟩)
  · exact Or.inr (Or.inl h)

/-- C8: for every insertion order of any multiset of `(key, value)`
pairs into a MemTable, `get_sorted_items()` returns exactly the table's
entries (a permutation of the backing dict) sorted strictly ascending by
key — hence one entry per key; sorting is idempotent (and the operation
itself is pure in this embedding: it cannot modify the table); and for
every key `k`, `get(k)` returns the most recently set value for `k`. -/
theorem C8_memtable_sort_laws (ops : List (String × String)) :
    ((MemTable.fromOps ops).get_sorted_items).Pairwise (fun a b => a.1 < b.1) ∧
    ((MemTable.fromOps ops).get_sorted_items).Perm (MemTable.fromOps ops)._data ∧
    ((MemTable.fromOps ops).get_sorted_items).mergeSort pairLeBool =
      (MemTable.fromOps ops).get_sorted_items ∧
    ∀ k, (MemTable.fromOps ops).get k = mostRecent ops k := by
  have hperm : ((MemTable.fromOps ops).get_sorted_items).Perm (MemTable.fromOps ops)._data := by
    rw [MemTable.get_sorted_items]
    exact List.mergeSort_perm _ pairLeBool
  have hsorted := List.sorted_mergeSort pairLe_trans pairLe_total ((MemTable.fromOps ops)._data)
  have hsorted2 : ((MemTable.fromOps ops).get_sorted_items).Pairwise
      (fun a b => pairLeBool a b = true) := hsorted
  have hnodup : (((MemTable.fromOps ops).get_sorted_items).map Prod.fst).Nodup := by
    have h2 := (hperm.map Prod.fst).nodup_iff
    exact h2.mpr (MemTable.fromOps_keys_nodup ops)
  have hne : ((MemTable.fromOps ops).get_sorted_items).Pairwise
      (fun a b => a.1 ≠ b.1) := List.pairwise_map.mp hnodup
  refine ⟨?_, hperm, ?_, MemTable.fromOps_get ops⟩
  · refine (hsorted2.and hne).imp ?_
    intro a b hab
    rcases hab with ⟨hle, hnab⟩
    simp only [pairLeBool, decide_eq_true_eq] at hle
    rcases hle with h | ⟨h, _⟩
    · exact h
    · exact absurd h hnab
  · exact List.mergeSort_of_sorted hsorted2

/-! Pickle round trip. -/

theorem splitOnByte_no_sep (sep : Nat) (l : List Nat) (h : sep ∉ l) :
    splitOnByte sep l = [l] := by
  induction l with
  | nil => rfl
  | cons b rest ih =>
    rw [splitOnByte]
    have hb : ¬(b = sep) := by
      intro hEq
      exact h (hEq ▸ List.mem_cons_self b rest)
    rw [if_neg hb, ih (fun hm => h (List.mem_cons_of_mem b hm))]

theorem splitOnByte_append (sep : Nat) (a rest : List Nat) (h : sep ∉ a) :
    splitOnByte sep (a ++ sep :: rest) = a :: splitOnByte sep rest := by
  induction a with
  | nil =>
    simp only [List.nil_append]
    rw [splitOnByte, if_pos rfl]
  | cons b t ih =>
    simp only [List.cons_append]
    rw [splitOnByte]
    have hb : ¬(b = sep) := by
      intro hEq
      exact h (hEq ▸ List.mem_cons_self b t)
    rw [if_neg hb, ih (fun hm => h (List.mem_cons_of_mem b hm))]

theorem natDigits_no_sep (n sep : Nat) (h : sep < 48 ∨ 57 < sep) : sep ∉ natDigits n := by
  intro hm
  have := natDigits_digits n sep hm
  simp only [isDigitByte, Bool.and_eq_true, decide_eq_true_eq] at this
  omega

theorem parseNatBytes_natDigits (n : Nat) : parseNatBytes (natDigits n) = some n := by
  rw [parseNatBytes, if_pos]
  · rw [digitsVal_natDigits]
  · exact ⟨natDigits_ne_nil n, List.all_eq_true.mpr (natDigits_digits n)⟩

theorem intDigits_no_sep (n : Int) (sep : Nat) (h45 : sep ≠ 45)
    (h : sep < 48 ∨ 57 < sep) : sep ∉ intDigits n := by
  rw [intDigits]
  split
  · intro hm
    rcases List.mem_cons.mp hm with rfl | hm2
    · exact h45 rfl
    · exact natDigits_no_sep _ sep h hm2
  · exact natDigits_no_sep _ sep h

theorem parseIntBytes_intDigits (n : Int) : parseIntBytes (intDigits n) = some n := by
  by_cases hneg : n < 0
  · have h1 : intDigits n = 45 :: natDigits n.natAbs := by
      rw [intDigits, if_pos hneg]
    rw [parseIntBytes, h1, if_pos (by rfl), List.tail_cons, parseNatBytes_natDigits]
    simp [abs_of_neg hneg]
  · have h1 : intDigits n = natDigits n.toNat := by
      rw [intDigits, if_neg hneg]
    have hhead : ¬((natDigits n.toNat).head? = some 45) := by
      obtain ⟨d, ds, hcons⟩ := List.exists_cons_of_ne_nil (natDigits_ne_nil n.toNat)
      rw [hcons]
      have hd := natDigits_digits n.toNat d (by rw [hcons]; exact List.mem_cons_self d ds)
      simp only [isDigitByte, Bool.and_eq_true, decide_eq_true_eq] at hd
      simp only [List.head?_cons, Option.some.injEq]
      omega
    rw [parseIntBytes, h1, if_neg hhead, parseNatBytes_natDigits]
    simp [Int.toNat_of_nonneg (by omega : (0 : Int) ≤ n)]

theorem pickleLoads_dumps (bf : BloomFilter) : pickleLoads (pickleDumps bf) = some bf := by
  rw [pickleDumps, pickleLoads]
  have h1 : (124 : Nat) ∉ natDigits bf.capacity := natDigits_no_sep _ _ (by omega)
  have h2 : (124 : Nat) ∉
      intDigits bf.error_rate.num ++ [47] ++ natDigits bf.error_rate.den := by
    intro hm
    rcases List.mem_append.mp hm with hm2 | hm2
    · rcases List.mem_append.mp hm2 with hm3 | hm3
      · exact intDigits_no_sep _ _ (by omega) (by omega) hm3
      · simp at hm3
    · exact natDigits_no_sep _ _ (by omega) hm2
  have h3 : (124 : Nat) ∉ natDigits bf.size := natDigits_no_sep _ _ (by omega)
  have h4 : (124 : Nat) ∉ natDigits bf.hash_count := natDigits_no_sep _ _ (by omega)
  have h5 : (124 : Nat) ∉ natDigits bf.bit_array := natDigits_no_sep _ _ (by omega)
  have hre : natDigits bf.capacity ++ [124] ++
      intDigits bf.error_rate.num ++ [47] ++ natDigits bf.error_rate.den ++ [124] ++
      natDigits bf.size ++ [124] ++ natDigits bf.hash_count ++ [124] ++
      natDigits bf.bit_array =
      natDigits bf.capacity ++ (124 ::
        ((intDigits bf.error_rate.num ++ [47] ++ natDigits bf.error_rate.den) ++ (124 ::
          (natDigits bf.size ++ (124 :: (natDigits bf.hash_count ++ (124 ::
            natDigits bf.bit_array))))))) := by
    simp [List.append_assoc]
  rw [hre, splitOnByte_append _ _ _ h1, splitOnByte_append _ _ _ h2,
    splitOnByte_append _ _ _ h3, splitOnByte_append _ _ _ h4,
    splitOnByte_no_sep _ _ h5]
  have h47 : (47 : Nat) ∉ intDigits bf.error_rate.num :=
    intDigits_no_sep _ _ (by omega) (by omega)
  have h47b : (47 : Nat) ∉ natDigits bf.error_rate.den := natDigits_no_sep _ _ (by omega)
  have hre2 : intDigits bf.error_rate.num ++ [47] ++ natDigits bf.error_rate.den =
      intDigits bf.error_rate.num ++ (47 :: natDigits bf.error_rate.den) := by
    simp [List.append_assoc]
  dsimp only
  rw [hre2, splitOnByte_append _ _ _ h47, splitOnByte_no_sep _ _ h47b]
  simp only [parseNatBytes_natDigits, parseIntBytes_intDigits]
  rw [if_pos bf.error_rate.den_nz]
  rw [Rat.num_div_den]


/-! Real-number bounds for the Bloom filter parameter formulas. -/

theorem log_hundred_gt : (13 : ℝ)/3 < Real.log 100 := by
  rw [Real.lt_log_iff_exp_lt (by norm_num : (0:ℝ) < 100)]
  have h3 : Real.exp ((13:ℝ)/3) ^ (3:ℕ) = Real.exp 13 := by
    rw [← Real.exp_nat_mul]
    norm_num
  have h13 : Real.exp 13 < 10 ^ (6:ℕ) := by
    have he : Real.exp 13 = Real.exp 1 ^ (13:ℕ) := by
      rw [← Real.exp_nat_mul]
      norm_num
    rw [he]
    calc Real.exp 1 ^ (13:ℕ) < 2.7182818286 ^ (13:ℕ) :=
          pow_lt_pow_left₀ Real.exp_one_lt_d9 (le_of_lt (Real.exp_pos 1)) (by norm_num)
      _ < 10 ^ (6:ℕ) := by norm_num
  have hlt : Real.exp ((13:ℝ)/3) ^ (3:ℕ) < (100 : ℝ) ^ (3:ℕ) := by
    rw [h3]
    calc Real.exp 13 < 10 ^ (6:ℕ) := h13
      _ = (100 : ℝ) ^ (3:ℕ) := by norm_num
  exact lt_of_pow_lt_pow_left₀ 3 (by norm_num) hlt

theorem log_hundred_lt : Real.log 100 < 24/5 := by
  rw [Real.log_lt_iff_lt_exp (by norm_num : (0:ℝ) < 100)]
  have h5 : Real.exp ((24:ℝ)/5) ^ (5:ℕ) = Real.exp 24 := by
    rw [← Real.exp_nat_mul]
    norm_num
  have h24 : (10:ℝ) ^ (10:ℕ) < Real.exp 24 := by
    have he : Real.exp 24 = Real.exp 1 ^ (24:ℕ) := by
      rw [← Real.exp_nat_mul]
      norm_num
    rw [he]
    calc (10:ℝ) ^ (10:ℕ) < 2.7182818283 ^ (24:ℕ) := by norm_num
      _ < Real.exp 1 ^ (24:ℕ) :=
          pow_lt_pow_left₀ Real.exp_one_gt_d9 (by norm_num) (by norm_num)
  have hlt : (100 : ℝ) ^ (5:ℕ) < Real.exp ((24:ℝ)/5) ^ (5:ℕ) := by
    rw [h5]
    calc (100 : ℝ) ^ (5:ℕ) = 10 ^ (10:ℕ) := by norm_num
      _ < Real.exp 24 := h24
  exact lt_of_pow_lt_pow_left₀ 5 (le_of_lt (Real.exp_pos _)) hlt

theorem log2_sq_bounds : (0.48 : ℝ) < (Real.log 2)^2 ∧ (Real.log 2)^2 < 0.480453015 := by
  have h1 := Real.log_two_gt_d9
  have h2 := Real.log_two_lt_d9
  constructor <;> nlinarith

theorem log100_div_log2sq_bounds :
    (9 : ℝ) < Real.log 100 / (Real.log 2)^2 ∧ Real.log 100 / (Real.log 2)^2 < 10 := by
  have h1 := log_hundred_gt
  have h2 := log_hundred_lt
  have h3 := Real.log_two_gt_d9
  have h4 := Real.log_two_lt_d9
  have hpos : (0:ℝ) < (Real.log 2)^2 := by nlinarith
  constructor
  · rw [lt_div_iff₀ hpos]
    nlinarith
  · rw [div_lt_iff₀ hpos]
    nlinarith

theorem intTrunc_of_nonneg (x : ℝ) (h : 0 ≤ x) : intTrunc x = ⌊x⌋ := if_pos h

theorem getsize_1_100 : BloomFilter._get_size 1 (1/100) = 9 := by
  rw [BloomFilter._get_size]
  have hc : (((1:ℚ)/100 : ℚ) : ℝ) = 1/100 := by norm_num
  have hlog : Real.log ((1:ℝ)/100) = -Real.log 100 := by
    rw [one_div, Real.log_inv]
  have he : -(((1:ℕ) : ℝ) * Real.log ((1:ℝ)/100)) / (Real.log 2)^2 =
      Real.log 100 / (Real.log 2)^2 := by
    rw [hlog]
    push_cast
    ring
  rw [hc, he]
  have hb := log100_div_log2sq_bounds
  rw [intTrunc_of_nonneg _ (by linarith [hb.1])]
  have hfloor : ⌊Real.log 100 / (Real.log 2)^2⌋ = 9 := by
    rw [Int.floor_eq_iff]
    constructor
    · push_cast
      linarith [hb.1]
    · push_cast
      linarith [hb.2]
  rw [hfloor]
  rfl

theorem gethash_9_1 : BloomFilter._get_hash_count 9 1 = 6 := by
  rw [BloomFilter._get_hash_count]
  have he : ((9:ℕ) : ℝ) / ((1:ℕ) : ℝ) * Real.log 2 = 9 * Real.log 2 := by
    push_cast
    ring
  rw [he]
  have h3 := Real.log_two_gt_d9
  have h4 := Real.log_two_lt_d9
  rw [intTrunc_of_nonneg _ (by nlinarith)]
  have hfloor : ⌊(9:ℝ) * Real.log 2⌋ = 6 := by
    rw [Int.floor_eq_iff]
    constructor
    · push_cast
      nlinarith
    · push_cast
      nlinarith
  rw [hfloor]
  rfl

theorem getsize_1_99 : BloomFilter._get_size 1 (99/100) = 0 := by
  rw [BloomFilter._get_size]
  have hc : (((99:ℚ)/100 : ℚ) : ℝ) = 99/100 := by norm_num
  have hlog : -Real.log ((99:ℝ)/100) = Real.log (100/99) := by
    rw [← Real.log_inv]
    norm_num
  have he : -(((1:ℕ) : ℝ) * Real.log ((99:ℝ)/100)) / (Real.log 2)^2 =
      Real.log ((100:ℝ)/99) / (Real.log 2)^2 := by
    rw [← hlog]
    push_cast
    ring
  rw [hc, he]
  have h0 : (0:ℝ) ≤ Real.log ((100:ℝ)/99) := Real.log_nonneg (by norm_num)
  have h1 : Real.log ((100:ℝ)/99) ≤ 100/99 - 1 :=
    Real.log_le_sub_one_of_pos (by norm_num)
  have h2 := log2_sq_bounds
  have hpos : (0:ℝ) < (Real.log 2)^2 := by nlinarith [h2.1]
  rw [intTrunc_of_nonneg _ (div_nonneg h0 (le_of_lt hpos))]
  have hfloor : ⌊Real.log ((100:ℝ)/99) / (Real.log 2)^2⌋ = 0 := by
    rw [Int.floor_eq_iff]
    constructor
    · push_cast
      exact div_nonneg h0 (le_of_lt hpos)
    · push_cast
      rw [zero_add, div_lt_one hpos]
      nlinarith [h2.1]
  rw [hfloor]
  rfl

theorem gethash_0_1 : BloomFilter._get_hash_count 0 1 = 0 := by
  rw [BloomFilter._get_hash_count]
  have he : ((0:ℕ) : ℝ) / ((1:ℕ) : ℝ) * Real.log 2 = 0 := by
    push_cast
    ring
  rw [he, intTrunc_of_nonneg _ (le_refl 0), Int.floor_zero]
  rfl

theorem BloomFilter.init_ok (n : Nat) (p : ℚ) (hp : ¬(p ≤ 0)) (hn : ¬(n = 0)) :
    BloomFilter.init n p = .ok
      { capacity := n, error_rate := p, size := BloomFilter._get_size n p,
        hash_count := BloomFilter._get_hash_count (BloomFilter._get_size n p) n,
        bit_array := 0 } := by
  rw [BloomFilter.init, if_neg hp]
  simp only [if_neg hn]

theorem bloom_init_1_100 :
    BloomFilter.init 1 (1/100) = .ok ⟨1, 1/100, 9, 6, 0⟩ := by
  rw [BloomFilter.init_ok 1 (1/100) (by norm_num) (by norm_num), getsize_1_100, gethash_9_1]

theorem bloom_init_1_99 :
    BloomFilter.init 1 (99/100) = .ok ⟨1, 99/100, 0, 0, 0⟩ := by
  rw [BloomFilter.init_ok 1 (99/100) (by norm_num) (by norm_num), getsize_1_99, gethash_0_1]

/-! Bit-level facts for the Bloom filter. -/

theorem testBit_foldl_or_of (hs : List Nat) : ∀ (a h : Nat), Nat.testBit a h = true →
    Nat.testBit (hs.foldl (fun a h => a ||| (1 <<< h)) a) h = true := by
  induction hs with
  | nil => intro a h hm; simpa using hm
  | cons h1 t ih =>
    intro a h hm
    rw [List.foldl_cons]
    apply ih
    rw [Nat.testBit_or, hm]
    rfl

theorem testBit_foldl_or (hs : List Nat) : ∀ (a h : Nat), h ∈ hs →
    Nat.testBit (hs.foldl (fun a h => a ||| (1 <<< h)) a) h = true := by
  induction hs with
  | nil => intro a h hm; simp at hm
  | cons h1 t ih =>
    intro a h hm
    rw [List.foldl_cons]
    rcases List.mem_cons.mp hm with rfl | hm2
    · apply testBit_foldl_or_of
      rw [Nat.testBit_or]
      have : Nat.testBit (1 <<< h) h = true := by
        rw [Nat.one_shiftLeft, Nat.testBit_two_pow]
        simp
      rw [this]
      simp
    · exact ih _ h hm2

theorem bit_and_shift_ne (B h : Nat) (hbit : Nat.testBit B h = true) :
    ((B &&& (1 <<< h)) == 0) = false := by
  rw [Nat.one_shiftLeft, Nat.and_two_pow, hbit]
  simp only [Bool.toNat_true, one_mul, beq_eq_false_iff_ne, ne_eq]
  have := Nat.pos_pow_of_pos h (show 0 < 2 by omega)
  omega

theorem except_map_ok {α β ε : Type} (f : α → β) (x : α) :
    Except.map f (Except.ok x : Except ε α) = .ok (f x) := rfl

theorem except_bind_ok {α β ε : Type} (x : α) (f : α → Except ε β) :
    (Except.ok x : Except ε α).bind f = f x := rfl

/-- C6 (amended): a Bloom filter state whose computed parameters satisfy
`1 ≤ size` and `1 ≤ hash_count ≤ 256` has no false negatives: after
`add(key)`, `not_contains(key)` returns `false`.  (As stated over all
`0 < p < 1` the claim fails: error rates close enough to 1 make the
derived `hash_count` zero, see `C6_counterexample_hash_count_zero`.) -/
theorem C6_no_false_negatives (bf : BloomFilter) (key : String)
    (hsize : 1 ≤ bf.size) (hk1 : 1 ≤ bf.hash_count) (hk2 : bf.hash_count ≤ 256) :
    (bf.add key).bind (fun bf2 => bf2.not_contains key) = .ok false := by
  have hs0 : ¬(bf.hash_count = 0) := by omega
  have hz : ¬(bf.size = 0) := by omega
  have h256 : ¬(256 < bf.hash_count) := by omega
  have hh : bf._hashes key = .ok ((List.range bf.hash_count).map
      (fun i => sha256Nat (utf8Encode key ++ [i]) % bf.size)) := by
    rw [BloomFilter._hashes, if_neg hs0, if_neg hz, if_neg h256]
  rw [BloomFilter.add, hh, except_map_ok, except_bind_ok]
  rw [BloomFilter.not_contains]
  have hpres : ∀ B : Nat, BloomFilter._hashes { bf with bit_array := B } key =
      .ok ((List.range bf.hash_count).map
        (fun i => sha256Nat (utf8Encode key ++ [i]) % bf.size)) := by
    intro B
    rw [show BloomFilter._hashes { bf with bit_array := B } key = bf._hashes key from rfl, hh]
  rw [hpres, except_map_ok]
  congr 1
  dsimp only
  rw [List.all_eq_false]
  refine ⟨sha256Nat (utf8Encode key ++ [0]) % bf.size,
    List.mem_map.mpr ⟨0, List.mem_range.mpr (by omega), rfl⟩, ?_⟩
  rw [bit_and_shift_ne]
  · simp
  · apply testBit_foldl_or
    exact List.mem_map.mpr ⟨0, List.mem_range.mpr (by omega), rfl⟩

/-- Witness for `C6_no_false_negatives` at a concrete filter state
(`size = 9`, `hash_count = 6`, the parameters `BloomFilter(1, 0.01)`
computes) and the key `"a"`. -/
theorem C6_no_false_negatives_witness :
    ((⟨1, 1/100, 9, 6, 0⟩ : BloomFilter).add "a").bind
      (fun bf2 => bf2.not_contains "a") = .ok false :=
  C6_no_false_negatives ⟨1, 1/100, 9, 6, 0⟩ "a" (by decide) (by decide) (by decide)

/-- C6, counterexample: with capacity 1 and error rate 0.99 the computed
bit count is 0 and the computed hash count is 0, so `add` sets no bits
and `not_contains` returns `true` even for an added key — a false
negative, refuting the claim for arbitrary `0 < p < 1`. -/
theorem C6_counterexample_hash_count_zero :
    (BloomFilter.init 1 (99/100)).bind
      (fun bf => (bf.add "a").bind (fun bf2 => bf2.not_contains "a")) = .ok true := by
  rw [bloom_init_1_99, except_bind_ok]
  have hh : BloomFilter._hashes ⟨1, 99/100, 0, 0, 0⟩ "a" = .ok [] := by
    rw [BloomFilter._hashes, if_pos rfl]
  rw [BloomFilter.add, hh, except_map_ok, except_bind_ok]
  rw [BloomFilter.not_contains]
  have hh2 : BloomFilter._hashes
      { (⟨1, 99/100, 0, 0, 0⟩ : BloomFilter) with
        bit_array := List.foldl (fun a h => a ||| (1 <<< h)) 0 [] } "a" = .ok [] := by
    rw [BloomFilter._hashes, if_pos rfl]
  rw [hh2, except_map_ok]
  rfl

/-- C9, counterexample: the claim says the bit count is the CEILING of
`-n·ln(p)/(ln 2)²`, but `_get_size` applies Python `int()`, which
truncates: at `n = 1`, `p = 0.01` the real value lies strictly between
9 and 10, the code computes 9, the claimed formula gives 10. -/
theorem C9_counterexample :
    (BloomFilter.init 1 (1/100)).map (fun bf => bf.size) = .ok 9 ∧
    ⌈-(((1:ℕ) : ℝ) * Real.log (((1:ℚ)/100 : ℚ) : ℝ)) / (Real.log 2) ^ 2⌉ = 10 ∧
    (9 : ℤ) ≠ 10 := by
  refine ⟨?_, ?_, by decide⟩
  · rw [bloom_init_1_100, except_map_ok]
  · have hc : (((1:ℚ)/100 : ℚ) : ℝ) = 1/100 := by norm_num
    have hlog : Real.log ((1:ℝ)/100) = -Real.log 100 := by
      rw [one_div, Real.log_inv]
    have he : -(((1:ℕ) : ℝ) * Real.log ((1:ℝ)/100)) / (Real.log 2)^2 =
        Real.log 100 / (Real.log 2)^2 := by
      rw [hlog]
      push_cast
      ring
    rw [hc, he]
    have hb := log100_div_log2sq_bounds
    rw [Int.ceil_eq_iff]
    constructor
    · push_cast
      linarith [hb.1]
    · push_cast
      linarith [hb.2]

/-- C9 (amended): for capacity `n ≥ 1` and error rate `0 < p < 1`, the
constructed filter satisfies `m = ⌊-n·ln(p)/(ln 2)²⌋` (floor — Python
`int()` truncation of a nonnegative float — not ceiling) and
`k = ⌊(m/n)·ln 2⌋`. -/
theorem C9_parameters_floor (n : Nat) (p : ℚ) (hn : 1 ≤ n) (hp0 : 0 < p) (hp1 : p < 1)
    (bf : BloomFilter) (h : BloomFilter.init n p = .ok bf) :
    (bf.size : ℤ) = ⌊-((n : ℝ) * Real.log ((p : ℚ) : ℝ)) / (Real.log 2) ^ 2⌋ ∧
    (bf.hash_count : ℤ) = ⌊((bf.size : ℝ) / (n : ℝ)) * Real.log 2⌋ := by
  rw [BloomFilter.init_ok n p (not_le.mpr hp0) (by omega)] at h
  injection h with h
  subst h
  have hp0r : (0 : ℝ) < (p : ℚ) := by exact_mod_cast hp0
  have hp1r : ((p : ℚ) : ℝ) < 1 := by exact_mod_cast hp1
  have hlogp : Real.log ((p : ℚ) : ℝ) < 0 := Real.log_neg hp0r hp1r
  have hx : (0 : ℝ) ≤ -((n : ℝ) * Real.log ((p : ℚ) : ℝ)) / (Real.log 2) ^ 2 := by
    apply div_nonneg
    · have : (0 : ℝ) ≤ (n : ℝ) := by positivity
      nlinarith
    · positivity
  constructor
  · show ((BloomFilter._get_size n p : ℕ) : ℤ) = _
    rw [BloomFilter._get_size, intTrunc_of_nonneg _ hx]
    exact Int.toNat_of_nonneg (Int.floor_nonneg.mpr hx)
  · show ((BloomFilter._get_hash_count (BloomFilter._get_size n p) n : ℕ) : ℤ) = _
    have hy : (0 : ℝ) ≤ ((BloomFilter._get_size n p : ℕ) : ℝ) / (n : ℝ) * Real.log 2 := by
      apply mul_nonneg
      · positivity
      · exact Real.log_nonneg (by norm_num)
    rw [BloomFilter._get_hash_count, intTrunc_of_nonneg _ hy]
    exact Int.toNat_of_nonneg (Int.floor_nonneg.mpr hy)

theorem rat_hundredth_pos : (0 : ℚ) < 1/100 := by norm_num

theorem rat_hundredth_lt_one : (1 : ℚ)/100 < 1 := by norm_num

/-- Witness for `C9_parameters_floor` at `n = 1`, `p = 1/100`, where the
constructed filter is `⟨1, 1/100, 9, 6, 0⟩`. -/
theorem C9_parameters_floor_witness :
    ((9 : ℕ) : ℤ) = ⌊-(((1:ℕ) : ℝ) * Real.log (((1:ℚ)/100 : ℚ) : ℝ)) / (Real.log 2) ^ 2⌋ ∧
    ((6 : ℕ) : ℤ) = ⌊(((9:ℕ) : ℝ) / ((1:ℕ) : ℝ)) * Real.log 2⌋ :=
  C9_parameters_floor 1 (1/100) (by decide) rat_hundredth_pos rat_hundredth_lt_one
    ⟨1, 1/100, 9, 6, 0⟩ bloom_init_1_100

/-- C1: the claim says `SSTableReader.get` returns the written value for
present keys and `none` for absent ones.  In the source, `get` opens
`self.data_path`, but the constructor stores the path in `self.db_path`
and never assigns `data_path`, so whenever the bloom filter does not
rule the key out (in particular for every key that was written, since
the filter has no false negatives) the call raises `AttributeError`
instead of returning a value.  This theorem evaluates the embedded code
on that path. -/
theorem C1_reader_get_raises (r : SSTableReader) (key : String) (bf : BloomFilter)
    (h1 : r.bloom_filter = some bf) (h2 : bf.not_contains key = .ok false) :
    r.get key = .error .attributeError := by
  rcases r with ⟨p, si, obf⟩
  simp only at h1
  subst h1
  show (bf.not_contains key).bind _ = _
  rw [h2, except_bind_ok]
  rfl

/-- Witness for `C1_reader_get_raises`: a reader over a one-bit bloom
filter that contains every key; `get "apple"` raises. -/
theorem C1_reader_get_raises_witness :
    SSTableReader.get ⟨"test.sst", [], some ⟨1, 1/100, 1, 1, 1⟩⟩ "apple" =
      .error .attributeError :=
  C1_reader_get_raises ⟨"test.sst", [], some ⟨1, 1/100, 1, 1, 1⟩⟩ "apple" ⟨1, 1/100, 1, 1, 1⟩
    rfl
    (by simp +decide [BloomFilter.not_contains, BloomFilter._hashes, Nat.mod_one, Except.map,
      List.all_cons])

/-- C3: the claim says the constructor collects every `(key, offset)`
checkpoint line of the index file into `sparse_index`.  The two
statements that would parse and append a checkpoint sit AFTER the
`break` inside the marker branch and are unreachable, so for EVERY
index-file content the constructed reader has an empty sparse index
(the claim expects `ceil(E/N) ≥ 1` checkpoints for `E ≥ 1` entries). -/
theorem C3_sparse_index_always_empty (p : String) (bytes : List Nat) (r : SSTableReader)
    (h : SSTableReader.init p bytes = .ok r) : r.sparse_index = [] := by
  rw [SSTableReader.init] at h
  cases hgo : SSTableReader.initGo [] bytes with
  | error e =>
    rw [hgo] at h
    exact Except.noConfusion h
  | ok bf =>
    rw [hgo, except_map_ok] at h
    injection h with h
    rw [← h]

/-- Witness for `C3_sparse_index_always_empty` on the empty index file. -/
theorem C3_sparse_index_always_empty_witness :
    (⟨"d.sst", [], none⟩ : SSTableReader).sparse_index = [] :=
  C3_sparse_index_always_empty "d.sst" [] ⟨"d.sst", [], none⟩ rfl

/-- C10: constructing a `BloomFilter` with capacity 0 raises
`ZeroDivisionError` in `_get_hash_count` (`m / n` with `n = 0`);
consequently `SSTableWriter.write` on an empty pair list raises instead
of producing an empty file pair; the engine only avoids this because
`flush` returns immediately on an empty MemTable. -/
theorem C10_zero_capacity :
    BloomFilter.init 0 (1/100) = .error .zeroDivisionError ∧
    SSTableWriter.write 10 [] = .error .zeroDivisionError ∧
    LSMEngine.flush engineNoFiles = .ok engineNoFiles := by
  have h1 : BloomFilter.init 0 (1/100) = .error .zeroDivisionError := by
    rw [BloomFilter.init, if_neg (by norm_num : ¬((1:ℚ)/100 ≤ 0))]
    exact if_pos rfl
  refine ⟨h1, ?_, ?_⟩
  · simp only [SSTableWriter.write, List.length_nil, h1]
    rfl
  · rw [LSMEngine.flush]
    exact if_pos rfl

/-- C7: the claim says that on a MemTable miss, `Engine.get` iterates
the cached sorted files newest-first and returns the first file's hit.
Because `SSTableReader.get` raises `AttributeError` whenever the bloom
filter does not rule the key out (see `C1_reader_get_raises`), an
engine whose MemTable misses a key that a sorted file holds raises
instead of returning the file's value.  The state below is exactly what
startup produces over an existing sorted file (empty WAL, empty
MemTable, one cached reader whose filter contains `"x"`). -/
theorem C7_get_raises_on_memtable_miss :
    LSMEngine.get engineOneFile "x" = .error .attributeError := by
  simp +decide [engineOneFile, LSMEngine.get, LSMEngine.getGo, MemTable.get, MemTable.mkEmpty,
    SSTableReader.get, BloomFilter.not_contains, BloomFilter._hashes, Nat.mod_one,
    Except.map, Except.bind, List.all_cons]

/-! The flush scenario of the spec: capacity 3, three `set` calls.
`clear()` assigns the stray attribute `data`, so the MemTable keeps its
entries through the flush. -/

/-- For three entries and error rate `0.01` the computed bit-array size
lies between 1 and 29 (the real value of `-3 ln(0.01) / (ln 2)^2` is
about 28.75). -/
theorem getsize_3_100_bounds :
    1 ≤ BloomFilter._get_size 3 (1/100) ∧ BloomFilter._get_size 3 (1/100) ≤ 29 := by
  rw [BloomFilter._get_size]
  have hc : (((1:ℚ)/100 : ℚ) : ℝ) = 1/100 := by norm_num
  have hlog : Real.log ((1:ℝ)/100) = -Real.log 100 := by
    rw [one_div, Real.log_inv]
  have he : -(((3:ℕ) : ℝ) * Real.log ((1:ℝ)/100)) / (Real.log 2)^2 =
      3 * (Real.log 100 / (Real.log 2)^2) := by
    rw [hlog]
    push_cast
    ring
  rw [hc, he]
  have hb := log100_div_log2sq_bounds
  rw [intTrunc_of_nonneg _ (by nlinarith [hb.1])]
  have h27 : (1:ℤ) ≤ ⌊(3:ℝ) * (Real.log 100 / (Real.log 2)^2)⌋ := by
    apply Int.le_floor.mpr
    push_cast
    nlinarith [hb.1]
  have h29 : ⌊(3:ℝ) * (Real.log 100 / (Real.log 2)^2)⌋ ≤ 29 := by
    have h30 : ⌊(3:ℝ) * (Real.log 100 / (Real.log 2)^2)⌋ < 30 := by
      apply Int.floor_lt.mpr
      push_cast
      nlinarith [hb.2]
    omega
  omega

/-- For `n = 3` and any size up to 29 the computed hash count is at most
6 (`29/3 * ln 2 < 7`). -/
theorem gethash_le_6 (m : Nat) (hm : m ≤ 29) :
    BloomFilter._get_hash_count m 3 ≤ 6 := by
  rw [BloomFilter._get_hash_count]
  have h3 := Real.log_two_gt_d9
  have h4 := Real.log_two_lt_d9
  have hy : (0:ℝ) ≤ ((m : ℕ) : ℝ) / ((3:ℕ) : ℝ) * Real.log 2 := by
    apply mul_nonneg
    · positivity
    · nlinarith
  rw [intTrunc_of_nonneg _ hy]
  have hup : ⌊((m : ℕ) : ℝ) / ((3:ℕ) : ℝ) * Real.log 2⌋ < 7 := by
    apply Int.floor_lt.mpr
    have hmr : ((m : ℕ) : ℝ) ≤ 29 := by exact_mod_cast hm
    push_cast
    rw [div_mul_eq_mul_div, div_lt_iff₀ (by norm_num : (0:ℝ) < 3)]
    nlinarith
  omega

/-- `add` returns its filter with the hash bits OR-ed into the bit array
whenever the size is nonzero and the hash count at most 256. -/
theorem BloomFilter.add_ok (bf : BloomFilter) (key : String)
    (h1 : ¬(bf.size = 0)) (h2 : bf.hash_count ≤ 256) :
    bf.add key = .ok (bloomAddPure bf key) := by
  by_cases hk : bf.hash_count = 0
  · rw [BloomFilter.add, BloomFilter._hashes, if_pos hk, except_map_ok]
    rw [bloomAddPure, bloomBitsAdd, hk]
    rfl
  · rw [BloomFilter.add, BloomFilter._hashes, if_neg hk, if_neg h1, if_neg (by omega),
      except_map_ok]
    rfl

/-- One step of the writer loop on a non-raising bloom filter. -/
theorem writeGo_cons (s : Nat) (hs : ¬(s = 0)) (key value : String)
    (rest : List (String × String)) (i offset : Nat) (bloom : BloomFilter)
    (dAcc iAcc : List Nat) (h1 : ¬(bloom.size = 0)) (h2 : bloom.hash_count ≤ 256) :
    SSTableWriter.writeGo s ((key, value) :: rest) i offset bloom dAcc iAcc =
      SSTableWriter.writeGo s rest (i + 1)
        (offset + (utf8Encode key ++ [9] ++ utf8Encode value ++ [10]).length)
        (bloomAddPure bloom key)
        (dAcc ++ (utf8Encode key ++ [9] ++ utf8Encode value ++ [10]))
        (if i % s = 0 then iAcc ++ utf8Encode key ++ [9] ++ natDigits offset ++ [10] else iAcc) := by
  rw [SSTableWriter.writeGo, BloomFilter.add_ok bloom key h1 h2, except_bind_ok, if_neg hs]

theorem bf3Start_size_ne : ¬(bf3Start.size = 0) := by
  have h := getsize_3_100_bounds.1
  show ¬(BloomFilter._get_size 3 (1/100) = 0)
  omega

theorem bf3Start_hash_le : bf3Start.hash_count ≤ 256 := by
  have h := gethash_le_6 (BloomFilter._get_size 3 (1/100)) getsize_3_100_bounds.2
  show BloomFilter._get_hash_count (BloomFilter._get_size 3 (1/100)) 3 ≤ 256
  omega

/-- The writer on the three sorted pairs of the flush scenario: the data
file holds the three lines, the index file one checkpoint line, the
marker, and the pickled filter. -/
theorem write_3users :
    SSTableWriter.write 10 [("user:1", "alice"), ("user:2", "bob"), ("user:3", "charlie")] =
      .ok (sstData3, idxLine3 ++ BLOOM_MARKER ++ pickleDumps bf3Final) := by
  have hlen : ([("user:1", "alice"), ("user:2", "bob"), ("user:3", "charlie")] :
      List (String × String)).length = 3 := rfl
  rw [SSTableWriter.write]
  rw [hlen, BloomFilter.init_ok 3 (1/100) (by norm_num) (by norm_num), except_bind_ok]
  rw [show ({ capacity := 3, error_rate := 1/100, size := BloomFilter._get_size 3 (1/100), hash_count := BloomFilter._get_hash_count (BloomFilter._get_size 3 (1/100)) 3, bit_array := 0 } : BloomFilter) = bf3Start from rfl]
  rw [writeGo_cons 10 (by decide) "user:1" "alice" _ 0 0 bf3Start [] [] bf3Start_size_ne bf3Start_hash_le]
  rw [writeGo_cons 10 (by decide) "user:2" "bob" _ 1 _ (bloomAddPure bf3Start "user:1") _ _ (show ¬((bloomAddPure bf3Start "user:1").size = 0) from bf3Start_size_ne) (show (bloomAddPure bf3Start "user:1").hash_count ≤ 256 from bf3Start_hash_le)]
  rw [writeGo_cons 10 (by decide) "user:3" "charlie" _ 2 _ (bloomAddPure (bloomAddPure bf3Start "user:1") "user:2") _ _ (show ¬((bloomAddPure (bloomAddPure bf3Start "user:1") "user:2").size = 0) from bf3Start_size_ne) (show (bloomAddPure (bloomAddPure bf3Start "user:1") "user:2").hash_count ≤ 256 from bf3Start_hash_le)]
  rw [SSTableWriter.writeGo, except_map_ok]
  simp +decide [bf3Final, sstData3, idxLine3, utf8Encode, utf8EncodeChar, natDigits]

/-- The reader on the index bytes the writer produced: no checkpoints
(the dead code of C3), and the unpickled filter. -/
theorem reader_init_3users (fname : String) :
    SSTableReader.init fname (idxLine3 ++ BLOOM_MARKER ++ pickleDumps bf3Final) =
      .ok { db_path := fname, sparse_index := [], bloom_filter := some bf3Final } := by
  rw [SSTableReader.init]
  have hwalk : SSTableReader.initGo [] (idxLine3 ++ BLOOM_MARKER ++ pickleDumps bf3Final) =
      .ok (some bf3Final) := by
    simp +decide [SSTableReader.initGo, idxLine3, BLOOM_MARKER, utf8Encode, utf8EncodeChar,
      pickleLoads_dumps]
  rw [hwalk, except_map_ok]

theorem natStr_zero_sst : natStr 0 ++ ".sst" = "0.sst" := by
  rw [natStr]
  have h0 : natDigits 0 = [48] := by simp +decide [natDigits]
  rw [h0]
  rfl

/-- The three entries are inserted in key order, so `sorted` returns the
dict items unchanged. -/
theorem mt3_sorted :
    (((MemTable.mkEmpty.set "user:1" "alice").set "user:2" "bob").set "user:3" "charlie").get_sorted_items = [("user:1", "alice"), ("user:2", "bob"), ("user:3", "charlie")] := by
  rw [MemTable.get_sorted_items]
  have hd : (((MemTable.mkEmpty.set "user:1" "alice").set "user:2" "bob").set "user:3" "charlie")._data = [("user:1", "alice"), ("user:2", "bob"), ("user:3", "charlie")] := by decide
  rw [hd]
  exact List.mergeSort_of_sorted (by simp +decide [pairLeBool])

/-- C2: the claim says `clear()` empties the MemTable (`len() = 0`
afterwards) and that after the capacity-3 flush scenario the MemTable
length is 0 with `"user:1"` served from the new sorted file.  In the
source `clear()` executes `self.data = {}` — a fresh attribute — and
never touches `self._data`, so `len` is unchanged by `clear` for EVERY
MemTable; in the scenario the three `set` calls do trigger the flush
(one sorted file is created and cached), yet the MemTable still holds
its 3 entries afterwards, and `get("user:1")` is answered by the
MemTable, not by the new file (whose reader would raise, see C1/C7). -/
theorem C2_clear_keeps_entries :
    (∀ mt : MemTable, (MemTable.clear mt).len = mt.len) ∧
    (((engineCap3.set "user:1" "alice").bind (fun e => e.set "user:2" "bob")).bind (fun e => e.set "user:3" "charlie")).map (fun e => (e.memtable.len, e.index_cache.length, LSMEngine.get e "user:1")) = .ok (3, 1, .ok (some "alice")) := by
  constructor
  · intro mt
    rfl
  · have h1 : engineCap3.set "user:1" "alice" = .ok { capacity := 3, sparsity_index := 10, timestamp := 0, memtable := MemTable.mkEmpty.set "user:1" "alice", walBytes := [] ++ WAL.recordBytes "user:1" "alice", dataFiles := [], index_cache := [] } := by
      rw [LSMEngine.set, WAL.append, if_pos (⟨by simp +decide [utf8Encode, utf8EncodeChar], by simp +decide [utf8Encode, utf8EncodeChar]⟩ : (utf8Encode "user:1").length < 4294967296 ∧ (utf8Encode "alice").length < 4294967296), except_bind_ok]
      dsimp only
      rw [if_neg (by decide)]
      rfl
    have h2 : LSMEngine.set { capacity := 3, sparsity_index := 10, timestamp := 0, memtable := MemTable.mkEmpty.set "user:1" "alice", walBytes := [] ++ WAL.recordBytes "user:1" "alice", dataFiles := [], index_cache := [] } "user:2" "bob" = .ok { capacity := 3, sparsity_index := 10, timestamp := 0, memtable := (MemTable.mkEmpty.set "user:1" "alice").set "user:2" "bob", walBytes := ([] ++ WAL.recordBytes "user:1" "alice") ++ WAL.recordBytes "user:2" "bob", dataFiles := [], index_cache := [] } := by
      rw [LSMEngine.set, WAL.append, if_pos (⟨by simp +decide [utf8Encode, utf8EncodeChar], by simp +decide [utf8Encode, utf8EncodeChar]⟩ : (utf8Encode "user:2").length < 4294967296 ∧ (utf8Encode "bob").length < 4294967296), except_bind_ok]
      dsimp only
      rw [if_neg (by decide)]
    have h3 : LSMEngine.set { capacity := 3, sparsity_index := 10, timestamp := 0, memtable := (MemTable.mkEmpty.set "user:1" "alice").set "user:2" "bob", walBytes := ([] ++ WAL.recordBytes "user:1" "alice") ++ WAL.recordBytes "user:2" "bob", dataFiles := [], index_cache := [] } "user:3" "charlie" = .ok { capacity := 3, sparsity_index := 10, timestamp := 1, memtable := (((MemTable.mkEmpty.set "user:1" "alice").set "user:2" "bob").set "user:3" "charlie").clear, walBytes := [], dataFiles := [("0.sst", sstData3)], index_cache := [("0.sst", { db_path := "0.sst", sparse_index := [], bloom_filter := some bf3Final })] } := by
      rw [LSMEngine.set, WAL.append, if_pos (⟨by simp +decide [utf8Encode, utf8EncodeChar], by simp +decide [utf8Encode, utf8EncodeChar]⟩ : (utf8Encode "user:3").length < 4294967296 ∧ (utf8Encode "charlie").length < 4294967296), except_bind_ok]
      dsimp only
      rw [if_pos (by decide)]
      rw [LSMEngine.flush, if_neg (by decide)]
      dsimp only
      rw [natStr_zero_sst, mt3_sorted, write_3users, except_bind_ok]
      dsimp only
      rw [reader_init_3users, except_map_ok]
      rfl
    rw [h1, except_bind_ok]
    rw [h2, except_bind_ok]
    rw [h3, except_map_ok]
    rfl
